import Mathlib

/-!
KH970 client: bit transfer engine, session protocol and command dispatcher

A shallow embedding of `src/kh970client.cpp` / `src/kh970client.h`.

* Hardware reads (`digitalRead`, `micros`, `millis`) are inputs: every call of
  `update()` is given an `Env` holding the values those calls return during
  that invocation.
* Hardware writes and blocking waits (`digitalWrite`, `delay`,
  `delayMicroseconds`) are outputs: every operation returns the list of
  `Event`s it performed, in program order.  The trace also records each
  `digitalRead` with the level it returned.  The entries `sendOut`,
  `force_reboot`, `append` and `readOutBytes` record the calls of the functions
  of the same name and the accesses to `outBytes`, so that statements about
  "which transfers were started" or "how often fault recovery ran" can be made
  on the trace.
* `uint8_t` values are natural numbers, reduced modulo 256 where the program
  does arithmetic on them; `unsigned long` timestamps are reduced modulo 2^32.
* `Serial` diagnostics and the LED macros (defined empty in the source) have
  no effect on the protocol and are left out.
-/

namespace KH970

/-! ## Lines, events, environment -/

/-- Logic level of a digital line. -/
inductive Level
  | LOW
  | HIGH
  deriving DecidableEq

/-- The four lines of the link (`kh970client.h`). -/
inductive Pin
  | KH_MOSI
  | KH_MISO
  | KH_SCK
  | KH_CS
  deriving DecidableEq

/-- Observable effects, in program order. -/
inductive Event
  | digitalRead (pin : Pin) (val : Level)
  | digitalWrite (pin : Pin) (val : Level)
  | delay (ms : Nat)
  | delayMicroseconds (us : Nat)
  | sendOut (mosiVal : Nat)
  | force_reboot
  | append (index : Nat) (val : Nat)
  | readOutBytes (index : Int)
  deriving DecidableEq

/-- Values returned by the hardware reads during one call of `update()`:
the level of the select line, the level of the data-in line, the results of
the first and of the second call of `micros()`, and the result of `millis()`. -/
structure Env where
  cs : Level
  miso : Level
  micros : Nat
  micros2 : Nat
  millis : Nat
  deriving DecidableEq

/-- Modulus of `unsigned long` (32 bits). -/
def ULONG : Nat := 2 ^ 32

/-- Subtraction of two `unsigned long` values. -/
def usub (a b : Nat) : Nat := (a % ULONG + (ULONG - b % ULONG)) % ULONG

def MSG_BEGIN : Nat := 0x47
def MSG_END : Nat := 0x87
def CLOCK_PERIOD : Nat := 100
def DEBUG_DELAY_MS : Nat := 5
def defaultCb1Val : Nat := 0x8b

/-! ## The bit transfer engine `CSI` -/

inductive CSI.State
  | STATE_IDLE
  | STATE_START
  | STATE_TRANSFER
  | STATE_FINISH
  | STATE_WAIT_CS_UP
  deriving DecidableEq

structure CSI where
  outByte : Nat
  inByte : Nat
  bitIndex : Nat
  state : CSI.State
  delayStartMicros : Nat
  deriving DecidableEq

/-- Result of one call of `CSI::update`: the new engine, the returned flag and
the effects performed. -/
structure CSI.Result where
  csi : CSI
  busy : Bool
  events : List Event

/-- Embedding of `CSI::begin` (lines 34-37). -/
def CSI.begin (k : CSI) : CSI × List Event :=
  ({ k with state := .STATE_IDLE }, [.digitalWrite .KH_SCK .LOW])

/-- Embedding of `CSI::update` (lines 39-81).  An early `return true` keeps the
engine as it is; the other paths return `state != STATE_IDLE`. -/
def CSI.update (e : Env) (k : CSI) : CSI.Result :=
  match k.state with
  | .STATE_START =>
    if e.cs = .HIGH then
      ⟨k, true, [.digitalRead .KH_CS e.cs]⟩
    else
      let k1 := { k with delayStartMicros := e.micros % ULONG, state := .STATE_TRANSFER }
      ⟨k1, decide (k1.state ≠ .STATE_IDLE),
        [.digitalRead .KH_CS e.cs, .digitalWrite .KH_MOSI .LOW, .digitalWrite .KH_SCK .LOW]⟩
  | .STATE_TRANSFER =>
    if usub e.micros k.delayStartMicros < CLOCK_PERIOD / 2 then
      ⟨k, true, []⟩
    else
      let k1 := { k with delayStartMicros := e.micros2 % ULONG }
      let k2 : CSI × List Event :=
        if k1.bitIndex % 2 = 0 then
          ({ k1 with outByte := k1.outByte / 2 },
            [.digitalWrite .KH_MOSI (if k1.outByte % 2 = 1 then .HIGH else .LOW),
             .digitalWrite .KH_SCK .HIGH])
        else
          ({ k1 with inByte :=
               if e.miso = .LOW then (k1.inByte / 2) ||| 0x80 else k1.inByte / 2 },
            [.digitalRead .KH_MISO e.miso, .digitalWrite .KH_SCK .LOW])
      let k3 : CSI := { k2.1 with bitIndex := (k2.1.bitIndex + 1) % 256 }
      let k4 : CSI := if k3.bitIndex ≥ 16 then { k3 with state := .STATE_FINISH } else k3
      ⟨k4, decide (k4.state ≠ .STATE_IDLE), k2.2⟩
  | .STATE_FINISH =>
    let k1 := { k with state := .STATE_WAIT_CS_UP }
    ⟨k1, decide (k1.state ≠ .STATE_IDLE),
      [.delayMicroseconds 1, .digitalWrite .KH_MOSI .LOW]⟩
  | _ =>
    let k1 := if e.cs = .HIGH then { k with state := .STATE_IDLE } else k
    ⟨k1, decide (k1.state ≠ .STATE_IDLE), [.digitalRead .KH_CS e.cs]⟩

/-- Embedding of `CSI::sendOut` (lines 83-89). -/
def CSI.sendOut (mosiVal : Nat) (k : CSI) : CSI × List Event :=
  ({ k with inByte := 0, outByte := mosiVal, bitIndex := 0, state := .STATE_START },
    [.sendOut mosiVal, .digitalWrite .KH_MOSI .HIGH])

/-! ## Fault recovery -/

/-- Embedding of `force_reboot` (lines 94-98): its effects. -/
def force_reboot : List Event :=
  [.force_reboot, .digitalWrite .KH_MOSI .HIGH, .delay 3000]

/-- Embedding of `check` (lines 100-112): the returned flag and the effects. -/
def check (actual expected : Nat) : Bool × List Event :=
  if actual ≠ expected then (false, force_reboot) else (true, [])

/-! ## The session protocol and the dispatcher `KH970Client` -/

inductive KH970Client.State
  | STATE_INIT
  | STATE_INIT_ACK
  | STATE_INIT_ACK_DONE
  | STATE_REPLY
  | STATE_END
  | STATE_END_ACK
  | STATE_END_DELAY
  deriving DecidableEq

/-- The fields of `struct KH970Client`.  `outBytes` stands for the array
`uint8_t outBytes[32]` and `pattern` for `uint8_t pattern[25]`. -/
structure KH970Client where
  outBytes : List Nat
  bytesToSend : Nat
  expectedByte : Nat
  lastSent : Nat
  bedVal : Nat
  booted : Bool
  delayStartMillis : Nat
  state : KH970Client.State
  pattern : List Nat
  pattern_row : Int
  deriving DecidableEq

/-- The constructor (lines 114-118) together with the default member
initialiser of `pattern_row`; the fields it leaves uninitialised keep the
values of `junk`. -/
def KH970Client.new (junk : KH970Client) : KH970Client :=
  { junk with bytesToSend := 0, state := .STATE_INIT, booted := false, pattern_row := 0 }

/-- Embedding of `KH970Client::append` (lines 127-135): the store
`outBytes[bytesToSend++] = val`.
A store at an index of 32 or more is outside the array; the model leaves
`outBytes` unchanged there and records the index in the trace. -/
def KH970Client.append (val : Nat) (c : KH970Client) : KH970Client × List Event :=
  ({ c with outBytes := c.outBytes.set c.bytesToSend val,
            bytesToSend := (c.bytesToSend + 1) % 256 },
    [.append c.bytesToSend val])

/-- The loop `for (int i = 0; i < 25; i++) append(pattern[i]);` (lines 273-275),
from iteration `i` on, with `n` iterations left. -/
def KH970Client.appendPattern : Nat → Nat → KH970Client → KH970Client × List Event
  | 0, _, c => (c, [])
  | n + 1, i, c =>
    let r := c.append (c.pattern.getD i 0)
    let r2 := KH970Client.appendPattern n (i + 1) r.1
    (r2.1, r.2 ++ r2.2)

/-- Embedding of `KH970Client::process` (lines 180-289): the `switch` over the
query byte, one branch per group of `case` labels. -/
def KH970Client.process (bedVal : Nat) (c : KH970Client) : KH970Client × List Event :=
  if bedVal = 0x01 then
    if c.booted then
      c.append 0x8b
    else
      let r := c.append 0x0b
      ({ r.1 with booted := true }, r.2)
  else if bedVal ∈ [0x80, 0xD8, 0x14, 0x3C, 0x02] then
    c.append 0x07
  else if bedVal = 0x0a then
    c.append 0x50
  else if bedVal = 0x8a then
    c.append 0x30
  else if bedVal = 0x4a then
    c.append 0x00
  else if bedVal = 0xca then
    c.append 0x00
  else if bedVal ∈ [0x0d, 0x4d, 0x8d, 0x2d, 0x7d, 0x13, 0xd3, 0xcd, 0xbd, 0x03, 0x43, 0xc3,
                    0x6d, 0xed, 0x1d, 0x3d, 0x81, 0x5d, 0x49, 0xdd] then
    c.append 0x07
  else if bedVal ∈ [0x05, 0x85] then
    let r := KH970Client.appendPattern 25 0 c
    ({ r.1 with pattern_row := r.1.pattern_row + 1 }, r.2)
  else if bedVal ∈ [0x09, 0x89] then
    c.append 0xf0
  else
    c.append defaultCb1Val

/-- Embedding of `KH970Client::set_pattern` (lines 291-293): `memcpy` of the 25
bytes at `data` (which must hold at least 25 bytes). -/
def KH970Client.set_pattern (data : List Nat) (c : KH970Client) : KH970Client :=
  { c with pattern := data.take 25 }

/-- The whole program state: the global engine `csi` and the client object. -/
structure Machine where
  csi : CSI
  client : KH970Client
  deriving DecidableEq

/-- The read `outBytes[bytesToSend - 1]` (lines 154 and 162).  The index is
computed in `int`; index `-1` (empty queue) is outside the array and the model
reads element 0 there. -/
def KH970Client.top (c : KH970Client) : Nat := c.outBytes.getD (c.bytesToSend - 1) 0

/-- Embedding of `KH970Client::update` (lines 137-178).  The engine step comes
first; the session advances only on a call where it returns false. -/
def KH970Client.update (e : Env) (m : Machine) : Machine × List Event :=
  let r := m.csi.update e
  if r.busy then
    ({ m with csi := r.csi }, r.events)
  else
    let csi := r.csi
    let c := m.client
    match c.state with
    | .STATE_INIT =>
      let s := csi.sendOut MSG_BEGIN
      (⟨s.1, { c with state := .STATE_INIT_ACK }⟩, r.events ++ s.2)
    | .STATE_INIT_ACK =>
      let c1 := { c with bedVal := csi.inByte }
      let s := csi.sendOut c1.bedVal
      (⟨s.1, { c1 with state := .STATE_INIT_ACK_DONE }⟩, r.events ++ s.2)
    | .STATE_INIT_ACK_DONE =>
      let ck := check csi.inByte MSG_BEGIN
      if !ck.1 then
        (⟨csi, c⟩, r.events ++ ck.2)
      else
        let p := c.process c.bedVal
        let c1 := { p.1 with expectedByte := MSG_BEGIN }
        let c2 := { c1 with lastSent := c1.top }
        let s := csi.sendOut c2.lastSent
        (⟨s.1, { c2 with state := .STATE_REPLY }⟩,
          r.events ++ ck.2 ++ p.2 ++ [.readOutBytes ((c1.bytesToSend : Int) - 1)] ++ s.2)
    | .STATE_REPLY =>
      let ck := check csi.inByte c.expectedByte
      if !ck.1 then
        (⟨csi, c⟩, r.events ++ ck.2)
      else
        let c1 := { c with expectedByte := c.lastSent }
        let c2 := { c1 with bytesToSend := (c1.bytesToSend + 255) % 256 }
        if c2.bytesToSend > 0 then
          let c3 := { c2 with lastSent := c2.top }
          let s := csi.sendOut c3.lastSent
          (⟨s.1, c3⟩,
            r.events ++ ck.2 ++ [.readOutBytes ((c2.bytesToSend : Int) - 1)] ++ s.2)
        else
          let s := csi.sendOut MSG_END
          (⟨s.1, { c2 with state := .STATE_END_ACK }⟩, r.events ++ ck.2 ++ s.2)
    | .STATE_END_ACK =>
      let ck := check csi.inByte c.expectedByte
      if !ck.1 then
        (⟨csi, c⟩, r.events ++ ck.2)
      else
        let c1 := { c with delayStartMillis := e.millis % ULONG }
        (⟨csi, { c1 with state :=
                   if DEBUG_DELAY_MS > 0 then .STATE_END_DELAY else .STATE_INIT }⟩,
          r.events ++ ck.2)
    | .STATE_END_DELAY =>
      if usub e.millis c.delayStartMillis > DEBUG_DELAY_MS then
        (⟨csi, { c with state := .STATE_INIT }⟩, r.events)
      else
        (⟨csi, c⟩, r.events)
    | .STATE_END =>
      (⟨csi, c⟩, r.events)

/-! ## Runs and observations -/

/-- Successive calls of `update()`, one per environment, with the concatenated trace. -/
def Machine.run : List Env → Machine → Machine × List Event
  | [], m => (m, [])
  | e :: es, m =>
    let r := KH970Client.update e m
    let r2 := Machine.run es r.1
    (r2.1, r.2 ++ r2.2)

/-- Successive calls of `CSI::update` alone, with the concatenated trace. -/
def CSI.run : List Env → CSI → CSI × List Event
  | [], k => (k, [])
  | e :: es, k =>
    let r := k.update e
    let r2 := CSI.run es r.csi
    (r2.1, r.events ++ r2.2)

/-- Number of invocations of `force_reboot` in a trace. -/
def faults (t : List Event) : Nat := t.count .force_reboot

/-- The bytes given to `sendOut` in a trace, in order: the transfers started. -/
def sent : List Event → List Nat
  | [] => []
  | .sendOut v :: t => v :: sent t
  | _ :: t => sent t

/-- The values given to `append` in a trace, in order. -/
def appended : List Event → List Nat
  | [] => []
  | .append _ v :: t => v :: appended t
  | _ :: t => appended t

/-- The value `update()` passes to `check` as `expected` in the three states
that call `check` (lines 149, 157, 168). -/
def KH970Client.expected (c : KH970Client) : Option Nat :=
  match c.state with
  | .STATE_INIT_ACK_DONE => some MSG_BEGIN
  | .STATE_REPLY => some c.expectedByte
  | .STATE_END_ACK => some c.expectedByte
  | _ => none

/-- A handshake mismatch is detected by `update()` under `e`: the engine step
reports idle, the session is in a state that calls `check`, and the received
byte differs from the expected one. -/
def mismatch (e : Env) (m : Machine) : Bool :=
  !(m.csi.update e).busy &&
    match m.client.expected with
    | some x => decide ((m.csi.update e).csi.inByte ≠ x)
    | none => false

/-- The byte delivered by a transfer that completes on this call of `update()`,
if any.  A transfer completes on the call that finds the engine outside
`STATE_IDLE` and on which `CSI::update` returns false; the byte delivered is
`csi.inByte`. -/
def delivered (e : Env) (m : Machine) : List Nat :=
  if m.csi.state ≠ .STATE_IDLE ∧ (m.csi.update e).busy = false
    then [(m.csi.update e).csi.inByte] else []

/-- The bytes delivered by completed transfers along a run, in order. -/
def received : List Env → Machine → List Nat
  | [], _ => []
  | e :: es, m => delivered e m ++ received es (KH970Client.update e m).1

/-- The data-in levels read in a trace, in capture order. -/
def sampled : List Event → List Level
  | [] => []
  | .digitalRead .KH_MISO l :: t => l :: sampled t
  | _ :: t => sampled t

/-- What the peer sees on data-out at the rising clock edges of a trace:
`l` is the level of data-out before the trace, every write to `KH_MOSI`
changes it, and every write of HIGH to `KH_SCK` samples it. -/
def clockedOut (l : Level) : List Event → List Level
  | [] => []
  | .digitalWrite .KH_MOSI v :: t => clockedOut v t
  | .digitalWrite .KH_SCK .HIGH :: t => l :: clockedOut l t
  | _ :: t => clockedOut l t

/-- Bit contributed by a data-in level: a low level is a set bit. -/
def Level.bit : Level → Nat
  | .LOW => 1
  | .HIGH => 0

/-- Byte decoded most-significant-bit-first from levels in capture order (the
reading of the specification): the first level is the highest bit. -/
def decodeMsbFirst : List Level → Nat
  | [] => 0
  | l :: t => l.bit * 2 ^ t.length + decodeMsbFirst t

/-- Byte decoded least-significant-bit-first from levels in capture order: the
first level is bit 0. -/
def decodeLsbFirst : List Level → Nat
  | [] => 0
  | l :: t => l.bit + 2 * decodeLsbFirst t

/-- Response table for the single-byte queries as written in the
specification (section 4.3). -/
def specResponse (q : Nat) : Nat :=
  if q ∈ [0x80, 0xD8, 0x14, 0x3C, 0x02] then 0x07
  else if q = 0x0A then 0x50
  else if q = 0x8A then 0x30
  else if q = 0x4A then 0x00
  else if q = 0xCA then 0x00
  else if q ∈ [0x0D, 0x4D, 0x8D, 0x2D, 0x7D, 0x13, 0xD3, 0xCD, 0xBD, 0x03, 0x43, 0xC3,
               0x6D, 0xED, 0x1D, 0x3D, 0x81, 0x5D, 0x49, 0xDD] then 0x07
  else if q = 0x09 ∨ q = 0x89 then 0xF0
  else 0x8B

/-- Session invariant along a successful cycle for query `q`: `recv` are the
bytes still to be delivered by transfers and `snd` the bytes still to be given
to `sendOut` until the END transfer has completed. -/
def Phase (q : Nat) (m : Machine) (recv snd : List Nat) : Prop :=
  m.client.outBytes.length = 32 ∧
  match m.client.state with
  | .STATE_INIT =>
    m.csi.state = .STATE_IDLE ∧ m.client.bytesToSend = 0 ∧
    recv = [q, MSG_BEGIN, MSG_BEGIN] ++ (appended (m.client.process q).2).reverse ∧
    snd = [MSG_BEGIN, q] ++ (appended (m.client.process q).2).reverse ++ [MSG_END]
  | .STATE_INIT_ACK =>
    m.csi.state ≠ .STATE_IDLE ∧ m.client.bytesToSend = 0 ∧
    recv = [q, MSG_BEGIN, MSG_BEGIN] ++ (appended (m.client.process q).2).reverse ∧
    snd = [q] ++ (appended (m.client.process q).2).reverse ++ [MSG_END]
  | .STATE_INIT_ACK_DONE =>
    m.csi.state ≠ .STATE_IDLE ∧ m.client.bytesToSend = 0 ∧ m.client.bedVal = q ∧
    recv = [MSG_BEGIN, MSG_BEGIN] ++ (appended (m.client.process q).2).reverse ∧
    snd = (appended (m.client.process q).2).reverse ++ [MSG_END]
  | .STATE_REPLY =>
    m.csi.state ≠ .STATE_IDLE ∧ 1 ≤ m.client.bytesToSend ∧ m.client.bytesToSend ≤ 32 ∧
    m.client.lastSent = m.client.top ∧
    recv = m.client.expectedByte :: (m.client.outBytes.take m.client.bytesToSend).reverse ∧
    snd = (m.client.outBytes.take (m.client.bytesToSend - 1)).reverse ++ [MSG_END]
  | .STATE_END_ACK =>
    m.csi.state ≠ .STATE_IDLE ∧ m.client.bytesToSend = 0 ∧
    recv = [m.client.expectedByte] ∧ snd = []
  | _ => False

/-- Number of data-in samples the engine still has to take in the current transfer. -/
def CSI.remaining (k : CSI) : Nat :=
  match k.state with
  | .STATE_START => 8
  | .STATE_TRANSFER => 8 - k.bitIndex / 2
  | _ => 0

/-- Number of bits the engine still has to clock out in the current transfer. -/
def CSI.pending (k : CSI) : Nat :=
  match k.state with
  | .STATE_START => 8
  | .STATE_TRANSFER => 8 - (k.bitIndex + 1) / 2
  | _ => 0

/-- Engine invariant inside a transfer: `sendOut` has reset `bitIndex`,
shifting stops at 16, and `inByte` is a byte. -/
def CSI.Ready (k : CSI) : Prop :=
  (k.state = .STATE_START → k.bitIndex = 0) ∧
  (k.state = .STATE_TRANSFER → k.bitIndex < 16) ∧ k.inByte < 256

/-- The lowest `n` bits of `y` as data-out levels, least significant bit first
(a set bit is HIGH). -/
def levelsLsbFirst (y n : Nat) : List Level :=
  (List.range n).map fun j => if y.testBit j then .HIGH else .LOW

/-! ## Concrete inputs -/

def csiIdle : CSI :=
  { outByte := 0, inByte := 0, bitIndex := 16, state := .STATE_IDLE, delayStartMicros := 0 }

def csiStart : CSI :=
  { outByte := 0xA5, inByte := 0, bitIndex := 0, state := .STATE_START, delayStartMicros := 0 }

def csiWaitUp : CSI :=
  { outByte := 0, inByte := 0x47, bitIndex := 16, state := .STATE_WAIT_CS_UP,
    delayStartMicros := 0 }

def envLow : Env := { cs := .LOW, miso := .HIGH, micros := 1000, micros2 := 1001, millis := 1 }

def envHigh : Env := { cs := .HIGH, miso := .HIGH, micros := 1000, micros2 := 1001, millis := 1 }

def client0 : KH970Client :=
  { outBytes := List.replicate 32 0, bytesToSend := 0, expectedByte := 0, lastSent := 0,
    bedVal := 0, booted := false, delayStartMillis := 0, state := .STATE_INIT,
    pattern := List.replicate 25 0, pattern_row := 0 }

/-- A session in `STATE_REPLY` that expects `0x47` while the idle engine holds
the received byte `0x00`. -/
def badReply : Machine :=
  { csi := csiIdle,
    client := { client0 with outBytes := (List.replicate 32 0).set 0 0x07, bytesToSend := 1,
                             expectedByte := 0x47, lastSent := 0x07, bedVal := 0x80,
                             state := .STATE_REPLY } }

/-- The poll number `n` of a schedule: polls are 100 microseconds apart, so
every poll in `STATE_TRANSFER` finds the half period elapsed. -/
def pollAt (n : Nat) (cs miso : Level) : Env :=
  { cs := cs, miso := miso, micros := 100 * n, micros2 := 100 * n + 1, millis := n }

/-- Two polls (one even, one odd half-step) per data-in level. -/
def bitPolls : Nat → List Level → List Env
  | _, [] => []
  | n, l :: t => pollAt n .LOW l :: pollAt (n + 1) .LOW l :: bitPolls (n + 2) t

/-- The polls of one whole transfer starting at poll number `n`: select seen
low, sixteen half-steps presenting `levels` on data-in, the finishing step, and
select seen high. -/
def transferPolls (n : Nat) (levels : List Level) : List Env :=
  pollAt n .LOW .HIGH :: bitPolls (n + 1) levels ++
    [pollAt (n + 1 + 2 * levels.length) .LOW .HIGH,
     pollAt (n + 2 + 2 * levels.length) .HIGH .HIGH]

/-- The data-in levels by which the peer presents the byte `b`. -/
def levelsOf (b : Nat) : List Level :=
  (List.range 8).map fun i => if b.testBit i then .LOW else .HIGH

/-- A machine right after construction, with a zeroed engine. -/
def machine0 : Machine := { csi := { csiIdle with bitIndex := 0 }, client := client0 }

/-- The polls of a whole session for the query `0x80`: the poll that starts the
BEGIN transfer, then the four transfers delivering `0x80`, `0x47`, `0x47`, `0x07`. -/
def sessionPolls : List Env :=
  pollAt 0 .HIGH .HIGH :: transferPolls 1 (levelsOf 0x80) ++ transferPolls 20 (levelsOf 0x47) ++
    transferPolls 39 (levelsOf 0x47) ++ (transferPolls 58 (levelsOf 0x07)).dropLast

/-- The polls of successive transfers delivering `bytes`, from poll number `n`. -/
def transfersPolls : Nat → List Nat → List Env
  | _, [] => []
  | n, b :: t => transferPolls n (levelsOf b) ++ transfersPolls (n + 19) t

/-- The polls of a whole cycle: the poll that starts the BEGIN transfer, then
one transfer per byte of `bytes`. -/
def cyclePolls (bytes : List Nat) : List Env :=
  pollAt 0 .HIGH .HIGH :: transfersPolls 1 bytes

/-- A pattern row `101, 102, .., 125`. -/
def rowData : List Nat := List.range' 101 25

/-- Data-in levels whose first sample alone is low. -/
def firstLow : List Level := [.LOW, .HIGH, .HIGH, .HIGH, .HIGH, .HIGH, .HIGH, .HIGH]

/-! ## Reachable states and further observations -/

/-- The operations a caller performs on the client. -/
inductive Op
  | update (e : Env)
  | set_pattern (data : List Nat)

/-- One operation on the whole program state, with its trace. -/
def Machine.apply : Op → Machine → Machine × List Event
  | .update e, m => KH970Client.update e m
  | .set_pattern d, m => ({ m with client := m.client.set_pattern d }, [])

/-- Any sequence of `update()` and `set_pattern()` calls, with the concatenated trace. -/
def Machine.exec : List Op → Machine → Machine × List Event
  | [], m => (m, [])
  | o :: os, m =>
    let r := Machine.apply o m
    let r2 := Machine.exec os r.1
    (r2.1, r.2 ++ r2.2)

/-- A freshly constructed client next to an idle engine; `k` and `junk` give
the fields the constructors leave unspecified. -/
def Machine.fresh (k : CSI) (junk : KH970Client) : Machine :=
  { csi := { k with state := .STATE_IDLE }, client := KH970Client.new junk }

/-- The indices of the stores into `outBytes` in a trace, in order. -/
def stores : List Event → List Nat
  | [] => []
  | .append i _ :: t => i :: stores t
  | _ :: t => stores t

/-- The indices of the reads `outBytes[bytesToSend - 1]` in a trace, in order. -/
def loads : List Event → List Int
  | [] => []
  | .readOutBytes i :: t => i :: loads t
  | _ :: t => loads t

/-- Session invariant of the reachable states: the queue is empty except in
`STATE_REPLY`, where it holds between 1 and 25 bytes; `STATE_END` is never
entered. -/
def Reach (m : Machine) : Prop :=
  match m.client.state with
  | .STATE_REPLY => 1 ≤ m.client.bytesToSend ∧ m.client.bytesToSend ≤ 25
  | .STATE_END => False
  | _ => m.client.bytesToSend = 0

/-- What a step of the engine does, as seen on the lines: a clock rise (even
half-step), a data-in sample (odd half-step), or the finishing step. -/
inductive Mark
  | rise
  | sample
  | finishing
  deriving DecidableEq

/-- The engine steps visible in a trace: every write of HIGH to `KH_SCK` is a
clock rise, every read of `KH_MISO` a sample, every `delayMicroseconds` the
finishing step. -/
def marks : List Event → List Mark
  | [] => []
  | .digitalWrite .KH_SCK .HIGH :: t => .rise :: marks t
  | .digitalRead .KH_MISO _ :: t => .sample :: marks t
  | .delayMicroseconds _ :: t => .finishing :: marks t
  | _ :: t => marks t

/-- The steps of a transfer from half-step `i` on: clock rises on even
half-steps, samples on odd ones, up to half-step 15, then the finishing step. -/
def marksFrom (i : Nat) : List Mark :=
  (List.range' i (16 - i)).map (fun j => if j % 2 = 0 then Mark.rise else Mark.sample) ++
    [Mark.finishing]

/-- The steps the engine still has to perform before it is idle. -/
def CSI.todo (k : CSI) : List Mark :=
  match k.state with
  | .STATE_START => marksFrom 0
  | .STATE_TRANSFER => marksFrom k.bitIndex
  | .STATE_FINISH => [Mark.finishing]
  | _ => []

/-- Engine invariant after `sendOut`: `bitIndex` is 0 while waiting for select,
below 16 while shifting and 16 afterwards. -/
def CSI.InTransfer (k : CSI) : Prop :=
  match k.state with
  | .STATE_START => k.bitIndex = 0
  | .STATE_TRANSFER => k.bitIndex < 16
  | _ => k.bitIndex = 16

/-- The values returned by successive calls of `CSI::update`. -/
def CSI.flags : List Env → CSI → List Bool
  | [], _ => []
  | e :: es, k => (k.update e).busy :: CSI.flags es (k.update e).csi

/-- A client that differs from `client0` in everything the dispatcher does not read. -/
def clientOther : KH970Client :=
  { client0 with outBytes := List.replicate 32 0xEE, expectedByte := 9, lastSent := 8,
                 bedVal := 7, delayStartMillis := 12345, state := .STATE_REPLY,
                 pattern_row := 42 }

/-- An engine in `STATE_TRANSFER` whose last edge was 10 microseconds before
the microsecond counter wraps. -/
def csiNearWrap : CSI :=
  { outByte := 0xA5, inByte := 0, bitIndex := 4, state := .STATE_TRANSFER,
    delayStartMicros := 4294967286 }

/-- A poll 50 microseconds after the last edge of `csiNearWrap`, past the wrap. -/
def envWrapped : Env := { cs := .LOW, miso := .LOW, micros := 40, micros2 := 41, millis := 0 }

/-- A poll 49 microseconds after the last edge of `csiNearWrap`, past the wrap. -/
def envTooEarly : Env := { cs := .LOW, miso := .LOW, micros := 39, micros2 := 40, millis := 0 }

/-- A session in `STATE_END_ACK` whose END transfer has delivered the expected byte. -/
def endAck : Machine :=
  { csi := { csiWaitUp with inByte := 0x07 },
    client := { client0 with expectedByte := 0x07, lastSent := 0x07, bedVal := 0x80,
                             state := .STATE_END_ACK } }

/-- A session in `STATE_END_DELAY` that recorded the timestamp 1000. -/
def endDelay : Machine :=
  { csi := csiIdle,
    client := { client0 with delayStartMillis := 1000, state := .STATE_END_DELAY } }

/-- A session in `STATE_INIT_ACK_DONE` whose idle engine holds a wrong echo. -/
def badAckDone : Machine :=
  { csi := csiIdle, client := { client0 with bedVal := 0x05, state := .STATE_INIT_ACK_DONE } }

/-- The operations of a row session: `set_pattern(rowData)`, then the polls of a
cycle for the query `0x05`. -/
def rowOps : List Op :=
  .set_pattern rowData :: (cyclePolls ([0x05, 0x47, 0x47] ++ rowData.reverse)).map Op.update

/-- The operations of a row session up to the poll that dispatches `0x05` and
starts the first response transfer. -/
def rowOpsDispatched : List Op :=
  .set_pattern rowData :: (cyclePolls [0x05, 0x47]).map Op.update

/-- The boot flag after each operation of a sequence. -/
def bootTrace : List Op → Machine → List Bool
  | [], _ => []
  | o :: os, m => (Machine.apply o m).1.client.booted :: bootTrace os (Machine.apply o m).1

theorem faults_append (a b : List Event) : faults (a ++ b) = faults a + faults b := by
  simp [faults]

theorem sent_append (a b : List Event) : sent (a ++ b) = sent a ++ sent b := by
  induction a with
  | nil => rfl
  | cons x t ih => cases x <;> simp [sent, ih]

theorem appended_append (a b : List Event) : appended (a ++ b) = appended a ++ appended b := by
  induction a with
  | nil => rfl
  | cons x t ih => cases x <;> simp [appended, ih]

/-! ## Frame lemmas for the engine step -/

theorem CSI.update_idle (e : Env) (k : CSI) (h : k.state = .STATE_IDLE) :
    (k.update e).csi = k ∧ (k.update e).busy = false ∧
    (k.update e).events = [.digitalRead .KH_CS e.cs] := by
  cases k with
  | mk o i b s d =>
    simp only at h
    subst h
    by_cases hc : e.cs = .HIGH <;> simp [CSI.update, hc]

theorem CSI.update_not_busy (e : Env) (k : CSI) (h : (k.update e).busy = false) :
    (k.update e).csi.state = .STATE_IDLE ∧ (k.update e).csi.inByte = k.inByte ∧
    (k.update e).events = [.digitalRead .KH_CS e.cs] := by
  cases k with
  | mk o i b s d =>
    cases s <;> simp only [CSI.update] at h ⊢ <;> (try split_ifs at h ⊢) <;> simp_all

theorem CSI.update_busy (e : Env) (k : CSI) (h : (k.update e).busy = true) :
    (k.update e).csi.state ≠ .STATE_IDLE := by
  cases k with
  | mk o i b s d =>
    cases s <;> simp only [CSI.update] at h ⊢ <;> (try split_ifs at h ⊢) <;> simp_all

/-- The engine never calls `sendOut` or `force_reboot`. -/
theorem CSI.update_silent (e : Env) (k : CSI) :
    sent (k.update e).events = [] ∧ faults (k.update e).events = 0 := by
  cases k with
  | mk o i b s d =>
    cases s <;> simp only [CSI.update] <;> (try split_ifs) <;> simp [sent, faults]

/-! ## Engine steps: select line (C6) -/

/-- C6 (as stated, refuted): in `STATE_START` (AwaitSelect) a poll on which the
select line reads LOW does not keep waiting (the engine writes two lines and
moves to `STATE_TRANSFER`), a poll on which it reads HIGH does not move to
`STATE_TRANSFER`, and in `STATE_WAIT_CS_UP` (AwaitDeselect) a poll on which
select reads LOW does not return to `STATE_IDLE`. -/
theorem C6_counterexample :
    ¬ ((CSI.update envLow csiStart).csi.state = csiStart.state ∧
       (CSI.update envLow csiStart).events = [.digitalRead .KH_CS .LOW]) ∧
    (CSI.update envHigh csiStart).csi.state ≠ .STATE_TRANSFER ∧
    (CSI.update envLow csiWaitUp).csi.state ≠ .STATE_IDLE := by
  decide

/-- C6 (amended): in `STATE_START` the engine keeps waiting (engine unchanged,
no line written, returns true) on every poll where the select line reads HIGH,
and on a poll where it reads LOW it drives data-out and clock low, records the
start timestamp and moves to `STATE_TRANSFER`, returning true; in
`STATE_WAIT_CS_UP` it returns to `STATE_IDLE` (returning false) on the poll where
select reads HIGH and keeps waiting (unchanged, returning true) while it reads LOW. -/
theorem C6_select_polarity (e : Env) (k : CSI) :
    (k.state = .STATE_START → e.cs = .HIGH →
      (k.update e).csi = k ∧ (k.update e).busy = true ∧
      (k.update e).events = [.digitalRead .KH_CS .HIGH]) ∧
    (k.state = .STATE_START → e.cs = .LOW →
      (k.update e).csi = { k with delayStartMicros := e.micros % ULONG,
                                  state := .STATE_TRANSFER } ∧
      (k.update e).busy = true ∧
      (k.update e).events = [.digitalRead .KH_CS .LOW, .digitalWrite .KH_MOSI .LOW,
                             .digitalWrite .KH_SCK .LOW]) ∧
    (k.state = .STATE_WAIT_CS_UP → e.cs = .HIGH →
      (k.update e).csi = { k with state := .STATE_IDLE } ∧
      (k.update e).busy = false ∧ (k.update e).events = [.digitalRead .KH_CS .HIGH]) ∧
    (k.state = .STATE_WAIT_CS_UP → e.cs = .LOW →
      (k.update e).csi = k ∧ (k.update e).busy = true ∧
      (k.update e).events = [.digitalRead .KH_CS .LOW]) := by
  refine ⟨?_, ?_, ?_, ?_⟩ <;> intro hs hc <;> simp [CSI.update, hs, hc]

/-- Witness for C6: the four cases at concrete engines and select levels. -/
theorem C6_select_polarity_witness :
    ((csiStart.update envHigh).csi = csiStart ∧ (csiStart.update envHigh).busy = true ∧
      (csiStart.update envHigh).events = [.digitalRead .KH_CS .HIGH]) ∧
    ((csiStart.update envLow).csi.state = .STATE_TRANSFER ∧
      (csiStart.update envLow).busy = true) ∧
    ((csiWaitUp.update envHigh).csi.state = .STATE_IDLE ∧
      (csiWaitUp.update envHigh).busy = false) ∧
    ((csiWaitUp.update envLow).csi = csiWaitUp ∧ (csiWaitUp.update envLow).busy = true) := by
  have h1 := (C6_select_polarity envHigh csiStart).1 rfl rfl
  have h2 := (C6_select_polarity envLow csiStart).2.1 rfl rfl
  have h3 := (C6_select_polarity envHigh csiWaitUp).2.2.1 rfl rfl
  have h4 := (C6_select_polarity envLow csiWaitUp).2.2.2 rfl rfl
  refine ⟨h1, ⟨?_, h2.2.1⟩, ⟨?_, h3.2.1⟩, ⟨h4.1, h4.2.1⟩⟩
  · rw [h2.1]
  · rw [h3.1]

/-! ## Handshake mismatch (C2, C3) -/

/-- The `update()` call that detects a mismatch only reads the select line and
runs `force_reboot`: the client object is left as it was. -/
theorem mismatch_step (e : Env) (m : Machine) (h : mismatch e m = true) :
    KH970Client.update e m =
      (⟨(m.csi.update e).csi, m.client⟩, .digitalRead .KH_CS e.cs :: force_reboot) ∧
    m.client.state ≠ .STATE_INIT := by
  simp only [mismatch, Bool.and_eq_true, Bool.not_eq_true'] at h
  obtain ⟨hb, hx⟩ := h
  have hev := (CSI.update_not_busy e m.csi hb).2.2
  cases hs : m.client.state <;>
    simp [KH970Client.expected, hs] at hx <;>
    simp [KH970Client.update, hb, hs, check, hx, hev]

/-- After a detected mismatch the next `update()` detects it again, whatever
the lines and clocks read. -/
theorem mismatch_again (e e2 : Env) (m : Machine) (h : mismatch e m = true) :
    mismatch e2 (KH970Client.update e m).1 = true := by
  have h1 := (mismatch_step e m h).1
  simp only [mismatch, Bool.and_eq_true, Bool.not_eq_true'] at h
  obtain ⟨hb, hx⟩ := h
  obtain ⟨hst, hin, _⟩ := CSI.update_not_busy e m.csi hb
  obtain ⟨h2, h3, _⟩ := CSI.update_idle e2 _ hst
  rw [h1]
  simp only [mismatch, h2, h3, Bool.not_false, Bool.true_and]
  exact hx

/-- Once a mismatch is pending, every further `update()` runs `force_reboot`
once, starts no transfer and leaves the client object unchanged. -/
theorem run_mismatch (es : List Env) (m : Machine) (h : ∀ e, mismatch e m = true) :
    faults (Machine.run es m).2 = es.length ∧ sent (Machine.run es m).2 = [] ∧
    (Machine.run es m).1.client = m.client := by
  induction es generalizing m with
  | nil => simp [Machine.run, faults, sent]
  | cons e es ih =>
    obtain ⟨s1, _⟩ := mismatch_step e m (h e)
    have h2 : ∀ e2, mismatch e2 (KH970Client.update e m).1 = true :=
      fun e2 => mismatch_again e e2 m (h e)
    obtain ⟨i1, i2, i3⟩ := ih _ h2
    simp only [Machine.run, faults_append, sent_append, i1, i2, i3]
    rw [s1]
    refine ⟨?_, ?_, ?_⟩
    · show faults (.digitalRead .KH_CS e.cs :: force_reboot) + es.length = es.length + 1
      have : faults (.digitalRead .KH_CS e.cs :: force_reboot) = 1 := rfl
      omega
    · rfl
    · rfl

/-- C2 (as stated, refuted): after the `update()` call that performs fault
recovery for a wrong byte in `STATE_REPLY` the session state is not
`STATE_INIT`, and the next `update()` starts no transfer. -/
theorem C2_counterexample :
    (KH970Client.update envHigh badReply).1.client.state ≠ .STATE_INIT ∧
    faults (KH970Client.update envHigh badReply).2 = 1 ∧
    sent (KH970Client.update envHigh (KH970Client.update envHigh badReply).1).2 = [] := by
  decide

/-- C2 (amended): in every session state in which a handshake mismatch is
detected, the `update()` call that performs the fault recovery pause leaves the
whole client object, hence the session state, unchanged (it is not `STATE_INIT`)
and starts no transfer; the next `update()` starts no BEGIN transfer either: it
finds the same mismatch and performs fault recovery again. -/
theorem C2_mismatch_keeps_state (e e2 : Env) (m : Machine) (h : mismatch e m = true) :
    (KH970Client.update e m).1.client = m.client ∧
    (KH970Client.update e m).1.client.state ≠ .STATE_INIT ∧
    (KH970Client.update e m).1.csi.state = .STATE_IDLE ∧
    faults (KH970Client.update e m).2 = 1 ∧
    sent (KH970Client.update e m).2 = [] ∧
    mismatch e2 (KH970Client.update e m).1 = true ∧
    sent (KH970Client.update e2 (KH970Client.update e m).1).2 = [] ∧
    faults (KH970Client.update e2 (KH970Client.update e m).1).2 = 1 := by
  have h2 := mismatch_again e e2 m h
  obtain ⟨s1, n1⟩ := mismatch_step e m h
  obtain ⟨s2, _⟩ := mismatch_step e2 _ h2
  have hb : (m.csi.update e).busy = false := by
    simp only [mismatch, Bool.and_eq_true, Bool.not_eq_true'] at h
    exact h.1
  refine ⟨?_, ?_, ?_, ?_, ?_, h2, ?_, ?_⟩
  · rw [s1]
  · rw [s1]; exact n1
  · rw [s1]; exact (CSI.update_not_busy e m.csi hb).1
  · rw [s1]; rfl
  · rw [s1]; rfl
  · rw [s2]; rfl
  · rw [s2]; rfl

/-- Witness for C2: the amended statement at a concrete wrong byte in `STATE_REPLY`. -/
theorem C2_mismatch_keeps_state_witness :
    mismatch envHigh badReply = true ∧
    (KH970Client.update envHigh badReply).1.client = badReply.client ∧
    faults (KH970Client.update envLow (KH970Client.update envHigh badReply).1).2 = 1 :=
  ⟨by decide, (C2_mismatch_keeps_state envHigh envLow badReply (by decide)).1,
    (C2_mismatch_keeps_state envHigh envLow badReply (by decide)).2.2.2.2.2.2.2⟩

/-- C3 (as stated, refuted): after the `update()` call that detected a wrong
byte in `STATE_REPLY`, the following `update()` call, made with the engine idle
and no new byte received, invokes `force_reboot` again: two calls, two
invocations. -/
theorem C3_counterexample :
    faults (KH970Client.update envLow (KH970Client.update envHigh badReply).1).2 = 1 ∧
    faults (Machine.run [envHigh, envLow] badReply).2 = 2 := by
  decide

/-- C3 (amended): for every session in `STATE_REPLY` whose completed transfer
returned a byte different from the expected one, the `update()` call that
detects the mismatch invokes `force_reboot` exactly once, and every following
`update()` call (engine idle, no new byte received) invokes it exactly once
again: after `n` further calls it has run `n` further times, and the session is
still in `STATE_REPLY`. -/
theorem C3_fault_every_update (e : Env) (es : List Env) (m : Machine)
    (hs : m.client.state = .STATE_REPLY) (hb : (m.csi.update e).busy = false)
    (hx : (m.csi.update e).csi.inByte ≠ m.client.expectedByte) :
    faults (KH970Client.update e m).2 = 1 ∧
    faults (Machine.run es (KH970Client.update e m).1).2 = es.length ∧
    (Machine.run es (KH970Client.update e m).1).1.client.state = .STATE_REPLY := by
  have hm : mismatch e m = true := by
    simp [mismatch, hb, KH970Client.expected, hs, hx]
  obtain ⟨s1, _⟩ := mismatch_step e m hm
  obtain ⟨r1, _, r3⟩ := run_mismatch es _ (fun e2 => mismatch_again e e2 m hm)
  refine ⟨?_, r1, ?_⟩
  · rw [s1]; rfl
  · rw [r3, s1]; exact hs

/-- Witness for C3: a wrong byte in `STATE_REPLY` followed by three more polls. -/
theorem C3_fault_every_update_witness :
    faults (KH970Client.update envHigh badReply).2 = 1 ∧
    faults (Machine.run [envLow, envHigh, envLow]
      (KH970Client.update envHigh badReply).1).2 = 3 :=
  ⟨(C3_fault_every_update envHigh [envLow, envHigh, envLow] badReply rfl
      (by decide) (by decide)).1,
    (C3_fault_every_update envHigh [envLow, envHigh, envLow] badReply rfl
      (by decide) (by decide)).2.1⟩

/-! ## The dispatcher: queue contents -/

theorem take_set_succ (l : List Nat) (d v : Nat) (h : d < l.length) :
    (l.set d v).take (d + 1) = l.take d ++ [v] := by
  induction l generalizing d with
  | nil => simp at h
  | cons x t ih =>
    cases d with
    | zero => simp
    | succ d =>
      simp only [List.length_cons, Nat.add_lt_add_iff_right] at h
      simp [ih d h]

/-- One `append` on a queue with room: the stored sequence grows by the value. -/
theorem append_spec (v : Nat) (c : KH970Client) (h : c.bytesToSend < c.outBytes.length)
    (hl : c.outBytes.length ≤ 255) :
    (c.append v).1.bytesToSend = c.bytesToSend + 1 ∧
    (c.append v).1.outBytes.length = c.outBytes.length ∧
    (c.append v).1.outBytes.take (c.bytesToSend + 1) = c.outBytes.take c.bytesToSend ++ [v] ∧
    (c.append v).1.outBytes.drop (c.bytesToSend + 1) = c.outBytes.drop (c.bytesToSend + 1) ∧
    appended (c.append v).2 = [v] := by
  refine ⟨?_, ?_, ?_, ?_, ?_⟩
  · show (c.bytesToSend + 1) % 256 = c.bytesToSend + 1
    omega
  · simp [KH970Client.append]
  · exact take_set_succ _ _ _ h
  · exact List.drop_set_of_lt _ _ (Nat.lt_succ_self _)
  · rfl

/-- The pattern loop on a queue with room for `n` more bytes. -/
theorem appendPattern_spec (n i : Nat) (c : KH970Client)
    (h : c.bytesToSend + n ≤ c.outBytes.length) (hl : c.outBytes.length ≤ 255) :
    (KH970Client.appendPattern n i c).1.bytesToSend = c.bytesToSend + n ∧
    (KH970Client.appendPattern n i c).1.outBytes.length = c.outBytes.length ∧
    (KH970Client.appendPattern n i c).1.outBytes.take (c.bytesToSend + n) =
      c.outBytes.take c.bytesToSend ++ appended (KH970Client.appendPattern n i c).2 ∧
    (KH970Client.appendPattern n i c).1.outBytes.drop (c.bytesToSend + n) =
      c.outBytes.drop (c.bytesToSend + n) ∧
    appended (KH970Client.appendPattern n i c).2 =
      (List.range n).map (fun j => c.pattern.getD (i + j) 0) := by
  induction n generalizing i c with
  | zero => simp [KH970Client.appendPattern, appended]
  | succ n ih =>
    obtain ⟨a1, a2, a3, a4, a5⟩ := append_spec (c.pattern.getD i 0) c (by omega) hl
    have hp : (c.append (c.pattern.getD i 0)).1.pattern = c.pattern := rfl
    obtain ⟨b1, b2, b3, b4, b5⟩ := ih (i + 1) (c.append (c.pattern.getD i 0)).1
      (by rw [a1, a2]; omega) (by rw [a2]; exact hl)
    simp only [KH970Client.appendPattern, appended_append]
    rw [a1] at b1 b3 b4
    rw [a2] at b2
    rw [hp] at b5
    have e1 : c.bytesToSend + 1 + n = c.bytesToSend + (n + 1) := by omega
    rw [e1] at b1 b3 b4
    refine ⟨b1, b2, ?_, ?_, ?_⟩
    · rw [b3, a3, a5, List.append_assoc]
    · rw [b4]
      have := congrArg (List.drop n) a4
      simpa [List.drop_drop, Nat.add_comm, Nat.add_left_comm, Nat.add_assoc] using this
    · rw [a5, b5, List.range_succ_eq_map]
      simp [Function.comp_def, Nat.add_comm, Nat.add_left_comm, Nat.add_assoc]

/-- The pattern loop touches only the queue. -/
theorem appendPattern_frame (n i : Nat) (c : KH970Client) :
    (KH970Client.appendPattern n i c).1.booted = c.booted ∧
    (KH970Client.appendPattern n i c).1.pattern = c.pattern ∧
    (KH970Client.appendPattern n i c).1.pattern_row = c.pattern_row := by
  induction n generalizing i c with
  | zero => simp [KH970Client.appendPattern]
  | succ n ih =>
    simp only [KH970Client.appendPattern]
    obtain ⟨h1, h2, h3⟩ := ih (i + 1) (c.append (c.pattern.getD i 0)).1
    exact ⟨h1.trans rfl, h2.trans rfl, h3.trans rfl⟩

/-- Every query other than the ping and the row requests is answered by one
`append` of its table entry. -/
theorem process_single (q : Nat) (c : KH970Client) (h1 : q ≠ 0x01) (h5 : q ≠ 0x05)
    (h85 : q ≠ 0x85) : c.process q = c.append (specResponse q) := by
  simp only [KH970Client.process, specResponse, defaultCb1Val, List.mem_cons,
    List.mem_singleton, List.not_mem_nil, or_false, if_neg h1]
  split_ifs <;> first | (exfalso; omega) | rfl

theorem process_booted (q : Nat) (c : KH970Client) :
    (c.process q).1.booted = (c.booted || decide (q = 0x01)) := by
  have hp := (appendPattern_frame 25 0 c).1
  simp only [KH970Client.process]
  split_ifs <;> simp_all [KH970Client.append]

theorem sampled_append (a b : List Event) : sampled (a ++ b) = sampled a ++ sampled b := by
  induction a with
  | nil => rfl
  | cons x t ih =>
    cases x with
    | digitalRead p l => cases p <;> simp [sampled, ih]
    | _ => simp [sampled, ih]

theorem lor_128 (x : Nat) (h : x < 128) : x ||| 128 = x + 128 := by
  have := Nat.mul_add_lt_is_or (i := 7) (b := x) (by simpa using h) 1
  rw [Nat.or_comm]
  simp at this
  omega

/-- One engine step keeps the invariant and accounts for the sample it takes:
the samples still to come fill the byte from bit 7 downwards as it is shifted
right. -/
theorem step_samples (e : Env) (k : CSI) (hr : k.Ready) (S : List Level) :
    (k.update e).csi.Ready ∧
    k.remaining = (sampled (k.update e).events).length + (k.update e).csi.remaining ∧
    k.inByte / 2 ^ k.remaining +
        decodeLsbFirst (sampled (k.update e).events ++ S) * 2 ^ (8 - k.remaining) =
      (k.update e).csi.inByte / 2 ^ (k.update e).csi.remaining +
        decodeLsbFirst S * 2 ^ (8 - (k.update e).csi.remaining) := by
  obtain ⟨o, a, b, s, d⟩ := k
  obtain ⟨h1, h2, h3⟩ := hr
  simp only at h1 h2 h3
  cases s
  · by_cases hc : e.cs = .HIGH <;>
      simp [CSI.update, hc, CSI.Ready, CSI.remaining, sampled, h3]
  · have hb : b = 0 := h1 rfl
    subst hb
    by_cases hc : e.cs = .HIGH <;>
      simp [CSI.update, hc, CSI.Ready, CSI.remaining, sampled, h3]
  · have hb : b < 16 := h2 rfl
    have hl := lor_128 (a / 2) (by omega)
    by_cases ht : usub e.micros d < CLOCK_PERIOD / 2
    · simp [CSI.update, ht, CSI.Ready, CSI.remaining, sampled, h3, hb]
    · interval_cases b <;> cases hm : e.miso <;>
        simp [CSI.update, ht, CSI.Ready, CSI.remaining, sampled, h3, hm, hl, decodeLsbFirst,
          Level.bit] <;> omega
  · simp [CSI.update, CSI.Ready, CSI.remaining, sampled, h3]
  · by_cases hc : e.cs = .HIGH <;>
      simp [CSI.update, hc, CSI.Ready, CSI.remaining, sampled, h3]

/-- Along any run of the engine that ends idle, the received byte is the least
significant bit first decoding of the samples taken. -/
theorem run_samples (es : List Env) (k : CSI) (hr : k.Ready)
    (hfin : (CSI.run es k).1.state = .STATE_IDLE) :
    (sampled (CSI.run es k).2).length = k.remaining ∧
    (CSI.run es k).1.inByte =
      k.inByte / 2 ^ k.remaining +
        decodeLsbFirst (sampled (CSI.run es k).2) * 2 ^ (8 - k.remaining) := by
  induction es generalizing k with
  | nil =>
    simp only [CSI.run] at hfin ⊢
    simp [CSI.remaining, hfin, sampled, decodeLsbFirst]
  | cons e es ih =>
    simp only [CSI.run] at hfin ⊢
    obtain ⟨r1, r2, r3⟩ := step_samples e k hr (sampled (CSI.run es (k.update e).csi).2)
    obtain ⟨i1, i2⟩ := ih _ r1 hfin
    rw [sampled_append]
    refine ⟨?_, ?_⟩
    · rw [List.length_append, i1, r2]
    · rw [i2, r3]

theorem decodeLsbFirst_testBit (S : List Level) (i : Nat) :
    (decodeLsbFirst S).testBit i = decide (S[i]? = some .LOW) := by
  induction S generalizing i with
  | nil => simp [decodeLsbFirst]
  | cons l t ih =>
    cases i with
    | zero =>
      cases l <;> simp [decodeLsbFirst, Level.bit, Nat.add_mod]
    | succ i =>
      rw [Nat.testBit_succ]
      have : (decodeLsbFirst (l :: t)) / 2 = decodeLsbFirst t := by
        cases l <;> simp [decodeLsbFirst, Level.bit]
        omega
      rw [this, ih]
      simp

theorem levelsLsbFirst_succ (y n : Nat) :
    levelsLsbFirst y (n + 1) =
      (if y % 2 = 1 then Level.HIGH else Level.LOW) :: levelsLsbFirst (y / 2) n := by
  simp only [levelsLsbFirst, List.range_succ_eq_map, List.map_cons, List.map_map,
    Nat.testBit_zero, decide_eq_true_eq]
  congr 1
  apply List.map_congr_left
  intro j _
  simp [Nat.testBit_succ]

/-- One engine step accounts for the bit it clocks out. -/
theorem step_clocked (e : Env) (k : CSI) (hr : k.Ready) (l : Level) (t : List Event)
    (F : ∀ l2, clockedOut l2 t =
      levelsLsbFirst (k.update e).csi.outByte (k.update e).csi.pending) :
    clockedOut l ((k.update e).events ++ t) = levelsLsbFirst k.outByte k.pending := by
  obtain ⟨o, a, b, s, d⟩ := k
  obtain ⟨h1, h2, h3⟩ := hr
  simp only at h1 h2 h3
  cases s
  · by_cases hc : e.cs = .HIGH <;>
      simp [CSI.update, hc, CSI.pending, clockedOut] at F ⊢ <;> exact F _
  · have hb : b = 0 := h1 rfl
    subst hb
    by_cases hc : e.cs = .HIGH <;>
      simp [CSI.update, hc, CSI.pending, clockedOut] at F ⊢ <;> exact F _
  · have hb : b < 16 := h2 rfl
    by_cases ht : usub e.micros d < CLOCK_PERIOD / 2
    · simp [CSI.update, ht, CSI.pending, clockedOut] at F ⊢
      exact F _
    · interval_cases b <;>
        simp [CSI.update, ht, CSI.pending, clockedOut] at F ⊢ <;>
        first
          | exact F _
          | rw [levelsLsbFirst_succ, F]
  · simp [CSI.update, CSI.pending, clockedOut] at F ⊢
    exact F _
  · by_cases hc : e.cs = .HIGH <;>
      simp [CSI.update, hc, CSI.pending, clockedOut] at F ⊢ <;> exact F _

/-- Along any run of the engine that ends idle, the levels seen on data-out at
the rising clock edges are the bits of `outByte` still to be sent. -/
theorem run_clocked (es : List Env) (k : CSI) (hr : k.Ready)
    (hfin : (CSI.run es k).1.state = .STATE_IDLE) (l : Level) :
    clockedOut l (CSI.run es k).2 = levelsLsbFirst k.outByte k.pending := by
  induction es generalizing k l with
  | nil =>
    simp only [CSI.run] at hfin ⊢
    simp [CSI.pending, hfin, clockedOut, levelsLsbFirst]
  | cons e es ih =>
    simp only [CSI.run] at hfin ⊢
    have r1 := (step_samples e k hr []).1
    exact step_clocked e k hr l _ (fun l2 => ih _ r1 hfin l2)

theorem sendOut_ready (x : Nat) (k : CSI) :
    (k.sendOut x).1.Ready ∧ (k.sendOut x).1.remaining = 8 ∧ (k.sendOut x).1.pending = 8 ∧
    (k.sendOut x).1.inByte = 0 ∧ (k.sendOut x).1.outByte = x := by
  simp [CSI.sendOut, CSI.Ready, CSI.remaining, CSI.pending]


theorem CSI.run_append (es es2 : List Env) (k : CSI) :
    CSI.run (es ++ es2) k =
      ((CSI.run es2 (CSI.run es k).1).1, (CSI.run es k).2 ++ (CSI.run es2 (CSI.run es k).1).2) := by
  induction es generalizing k with
  | nil => simp [CSI.run]
  | cons e es ih => simp [CSI.run, ih]

/-- Polls 100 microseconds apart always find the half period elapsed, also
across a wrap of the microsecond counter. -/
theorem usub_next (p c : Nat) (cs l : Level) (hc : c ≤ 50) :
    ¬ usub (pollAt (p + 1) cs l).micros ((100 * p + c) % ULONG) < CLOCK_PERIOD / 2 := by
  simp only [pollAt, usub, ULONG, CLOCK_PERIOD]
  omega

/-- Two polls of the schedule shift one bit out and one bit in. -/
theorem bit_pair (p c j : Nat) (l : Level) (k : CSI) (hs : k.state = .STATE_TRANSFER)
    (hbi : k.bitIndex = 2 * j) (hd : k.delayStartMicros = (100 * p + c) % ULONG)
    (hc : c ≤ 50) (hj : j < 8) :
    (CSI.run [pollAt (p + 1) .LOW l, pollAt (p + 2) .LOW l] k).1.state =
      (if j = 7 then .STATE_FINISH else .STATE_TRANSFER) ∧
    (CSI.run [pollAt (p + 1) .LOW l, pollAt (p + 2) .LOW l] k).1.bitIndex = 2 * (j + 1) ∧
    (CSI.run [pollAt (p + 1) .LOW l, pollAt (p + 2) .LOW l] k).1.delayStartMicros =
      (100 * (p + 2) + 1) % ULONG ∧
    sampled (CSI.run [pollAt (p + 1) .LOW l, pollAt (p + 2) .LOW l] k).2 = [l] := by
  obtain ⟨o, a, b, s, d⟩ := k
  simp only at hs hbi hd
  subst hs hbi hd
  have h1 := usub_next p c .LOW l hc
  have h2 := usub_next (p + 1) 1 .LOW l (by omega)
  have e1 : (pollAt (p + 1) .LOW l).micros2 = 100 * (p + 1) + 1 := rfl
  have e2 : (pollAt (p + 2) .LOW l).micros2 = 100 * (p + 2) + 1 := rfl
  have e3 : (pollAt (p + 2) .LOW l).miso = l := rfl
  have hp : p + 1 + 1 = p + 2 := rfl
  rw [hp] at h2
  have hb1 : (2 * j) % 2 = 0 := by omega
  have hb2 : ((2 * j + 1) % 256) % 2 ≠ 0 := by omega
  have hb3 : ¬ (2 * j + 1) % 256 ≥ 16 := by omega
  have hb4 : ((2 * j + 1) % 256 + 1) % 256 = 2 * (j + 1) := by omega
  have hb5 : (2 * (j + 1) ≥ 16) ↔ j = 7 := by omega
  simp only [CSI.run, CSI.update, h1, h2, e1, e2, e3, hb1, hb2, hb3, hb4, hb5, if_true, if_false]
  split_ifs <;> simp [sampled]

/-- The bit polls of the schedule run the shifting to its end and sample
exactly the levels presented. -/
theorem bitPolls_run (levels : List Level) :
    ∀ (p c j : Nat) (k : CSI), k.state = .STATE_TRANSFER → k.bitIndex = 2 * j →
      k.delayStartMicros = (100 * p + c) % ULONG → c ≤ 50 → levels ≠ [] →
      levels.length + j = 8 →
      (CSI.run (bitPolls (p + 1) levels) k).1.state = .STATE_FINISH ∧
      sampled (CSI.run (bitPolls (p + 1) levels) k).2 = levels := by
  induction levels with
  | nil => intro p c j k _ _ _ _ h; exact absurd rfl h
  | cons l t ih =>
    intro p c j k hs hbi hd hc _ hlen
    simp only [List.length_cons] at hlen
    obtain ⟨b1, b2, b3, b4⟩ := bit_pair p c j l k hs hbi hd hc (by omega)
    have hsplit : bitPolls (p + 1) (l :: t) =
        [pollAt (p + 1) .LOW l, pollAt (p + 2) .LOW l] ++ bitPolls (p + 2 + 1) t := rfl
    rw [hsplit, CSI.run_append, sampled_append, b4]
    by_cases ht : t = []
    · subst ht
      simp only [List.length_nil] at hlen
      have hj : j = 7 := by omega
      rw [if_pos hj] at b1
      exact ⟨b1, rfl⟩
    · have hj : j ≠ 7 := by
        intro h
        have : t.length = 0 := by omega
        exact ht (List.length_eq_zero.mp this)
      rw [if_neg hj] at b1
      obtain ⟨i1, i2⟩ := ih (p + 2) 1 (j + 1) _ b1 b2 b3 (by omega) ht (by omega)
      exact ⟨i1, by rw [i2]; rfl⟩

/-- Completion is always possible: for every byte to send and every 8 data-in
levels, the poll schedule `transferPolls` carries the transfer to `STATE_IDLE`
and the engine samples exactly those levels. -/
theorem transfer_completes (x n : Nat) (k : CSI) (levels : List Level)
    (h : levels.length = 8) :
    (CSI.run (transferPolls n levels) (k.sendOut x).1).1.state = .STATE_IDLE ∧
    sampled (CSI.run (transferPolls n levels) (k.sendOut x).1).2 = levels := by
  have hne : levels ≠ [] := by
    intro h0; rw [h0] at h; simp at h
  have hsplit : transferPolls n levels =
      [pollAt n .LOW .HIGH] ++ (bitPolls (n + 1) levels ++
        [pollAt (n + 1 + 2 * levels.length) .LOW .HIGH,
         pollAt (n + 2 + 2 * levels.length) .HIGH .HIGH]) := rfl
  have h0 : CSI.run [pollAt n .LOW .HIGH] (k.sendOut x).1 =
      (⟨x, 0, 0, .STATE_TRANSFER, (100 * n + 0) % ULONG⟩,
        [.digitalRead .KH_CS .LOW, .digitalWrite .KH_MOSI .LOW, .digitalWrite .KH_SCK .LOW]) := by
    simp [CSI.run, CSI.update, CSI.sendOut, pollAt]
  obtain ⟨b1, b2⟩ := bitPolls_run levels n 0 0 ⟨x, 0, 0, .STATE_TRANSFER, (100 * n + 0) % ULONG⟩
    rfl rfl rfl (by omega) hne (by omega)
  rw [hsplit, CSI.run_append, h0, CSI.run_append, sampled_append, sampled_append, b2]
  generalize CSI.run (bitPolls (n + 1) levels)
    ⟨x, 0, 0, .STATE_TRANSFER, (100 * n + 0) % ULONG⟩ = r at b1 b2
  obtain ⟨⟨o, a, b, s, d⟩, t⟩ := r
  simp only at b1
  subst b1
  simp [CSI.run, CSI.update, pollAt, sampled]

/-- C4 (as stated, refuted): in a whole transfer whose first data-in sample
alone is low, the completed `inByte` is 1, not the byte 128 decoded
most-significant-bit-first from the samples: the first sampled bit is not bit 7. -/
theorem C4_counterexample :
    (CSI.run (transferPolls 0 firstLow) (csiIdle.sendOut 0).1).1.state = .STATE_IDLE ∧
    sampled (CSI.run (transferPolls 0 firstLow) (csiIdle.sendOut 0).1).2 = firstLow ∧
    (CSI.run (transferPolls 0 firstLow) (csiIdle.sendOut 0).1).1.inByte = 1 ∧
    decodeMsbFirst firstLow = 128 ∧
    (CSI.run (transferPolls 0 firstLow) (csiIdle.sendOut 0).1).1.inByte ≠
      decodeMsbFirst (sampled (CSI.run (transferPolls 0 firstLow) (csiIdle.sendOut 0).1).2) := by
  decide

/-- C4 (amended): for every transfer started by `sendOut` and run to completion
under any line levels and clock values, exactly 8 data-in levels are sampled
and the completed `inByte` is the byte decoded least-significant-bit-first from
them in capture order (a low level is a set bit): sample number `i` is bit `i`,
so the first sampled bit is bit 0 and the last sampled bit is bit 7.  Every
sequence of 8 levels occurs: presented on the poll schedule `transferPolls`, it
is sampled as it is, and the transfer completes with `inByte` its
least-significant-bit-first decoding. -/
theorem C4_lsb_first_in (x : Nat) (k : CSI) :
    (∀ es : List Env, (CSI.run es (k.sendOut x).1).1.state = .STATE_IDLE →
      (sampled (CSI.run es (k.sendOut x).1).2).length = 8 ∧
      (CSI.run es (k.sendOut x).1).1.inByte =
        decodeLsbFirst (sampled (CSI.run es (k.sendOut x).1).2) ∧
      ∀ i, (CSI.run es (k.sendOut x).1).1.inByte.testBit i =
        decide ((sampled (CSI.run es (k.sendOut x).1).2)[i]? = some .LOW)) ∧
    (∀ (levels : List Level) (n : Nat), levels.length = 8 →
      (CSI.run (transferPolls n levels) (k.sendOut x).1).1.state = .STATE_IDLE ∧
      sampled (CSI.run (transferPolls n levels) (k.sendOut x).1).2 = levels ∧
      (CSI.run (transferPolls n levels) (k.sendOut x).1).1.inByte = decodeLsbFirst levels) := by
  obtain ⟨hr, h8, _, h0, _⟩ := sendOut_ready x k
  have main : ∀ es : List Env, (CSI.run es (k.sendOut x).1).1.state = .STATE_IDLE →
      (sampled (CSI.run es (k.sendOut x).1).2).length = 8 ∧
      (CSI.run es (k.sendOut x).1).1.inByte =
        decodeLsbFirst (sampled (CSI.run es (k.sendOut x).1).2) := by
    intro es hfin
    obtain ⟨r1, r2⟩ := run_samples es _ hr hfin
    rw [h8] at r1
    rw [h8, h0] at r2
    simp only [Nat.zero_div, Nat.sub_self, Nat.pow_zero, Nat.mul_one, Nat.zero_add] at r2
    exact ⟨r1, r2⟩
  refine ⟨fun es hfin => ⟨(main es hfin).1, (main es hfin).2, fun i => ?_⟩,
    fun levels n hlen => ?_⟩
  · rw [(main es hfin).2, decodeLsbFirst_testBit]
  · obtain ⟨t1, t2⟩ := transfer_completes x n k levels hlen
    refine ⟨t1, t2, ?_⟩
    rw [(main _ t1).2, t2]

/-- Witness for C4: the transfer in which the peer presents `0x80` completes
with `inByte = 0x80`. -/
theorem C4_lsb_first_in_witness :
    (CSI.run (transferPolls 0 (levelsOf 0x80)) (csiIdle.sendOut 0xA5).1).1.state = .STATE_IDLE ∧
    (CSI.run (transferPolls 0 (levelsOf 0x80)) (csiIdle.sendOut 0xA5).1).1.inByte =
      decodeLsbFirst
        (sampled (CSI.run (transferPolls 0 (levelsOf 0x80)) (csiIdle.sendOut 0xA5).1).2) ∧
    (CSI.run (transferPolls 7 firstLow) (csiIdle.sendOut 0xA5).1).1.inByte =
      decodeLsbFirst firstLow :=
  ⟨by decide,
    ((C4_lsb_first_in 0xA5 csiIdle).1 (transferPolls 0 (levelsOf 0x80)) (by decide)).2.1,
    ((C4_lsb_first_in 0xA5 csiIdle).2 firstLow 7 rfl).2.2⟩

/-- C5: for every byte `x` and every transfer started by `sendOut x` and run to
completion, an even half-step writes data-out HIGH exactly when the lowest bit
of the remaining `outByte` is set, shifts `outByte` right and then raises the
clock; so the data-out levels present at the 8 rising clock edges are the bits
of `x`, least significant bit first.  This holds along every completed run, and
the runs on the poll schedule `transferPolls` do complete. -/
theorem C5_lsb_first_out (x : Nat) (k : CSI) (l : Level) :
    (∀ es : List Env, (CSI.run es (k.sendOut x).1).1.state = .STATE_IDLE →
      clockedOut l (CSI.run es (k.sendOut x).1).2 = levelsLsbFirst x 8) ∧
    (∀ (levels : List Level) (n : Nat), levels.length = 8 →
      clockedOut l (CSI.run (transferPolls n levels) (k.sendOut x).1).2 =
        levelsLsbFirst x 8) ∧
    (∀ (e : Env) (j : CSI), j.state = .STATE_TRANSFER → j.bitIndex % 2 = 0 →
      ¬ usub e.micros j.delayStartMicros < CLOCK_PERIOD / 2 →
      (j.update e).events =
        [.digitalWrite .KH_MOSI (if j.outByte % 2 = 1 then .HIGH else .LOW),
         .digitalWrite .KH_SCK .HIGH] ∧
      (j.update e).csi.outByte = j.outByte / 2) := by
  obtain ⟨hr, _, h8, _, hx⟩ := sendOut_ready x k
  have main : ∀ es : List Env, (CSI.run es (k.sendOut x).1).1.state = .STATE_IDLE →
      clockedOut l (CSI.run es (k.sendOut x).1).2 = levelsLsbFirst x 8 := by
    intro es hfin
    have r := run_clocked es _ hr hfin l
    rw [h8, hx] at r
    exact r
  refine ⟨main, fun levels n hlen => main _ (transfer_completes x n k levels hlen).1, ?_⟩
  intro e j hs hb ht
  simp only [CSI.update, hs, ht, hb, if_true, if_false]
  split_ifs <;> simp

/-- Witness for C5: the byte `0xA5` appears on data-out as `1,0,1,0,0,1,0,1`. -/
theorem C5_lsb_first_out_witness :
    clockedOut .HIGH (CSI.run (transferPolls 0 (levelsOf 0x80)) (csiIdle.sendOut 0xA5).1).2 =
      [.HIGH, .LOW, .HIGH, .LOW, .LOW, .HIGH, .LOW, .HIGH] ∧
    clockedOut .HIGH (CSI.run (transferPolls 3 firstLow) (csiIdle.sendOut 0xA5).1).2 =
      levelsLsbFirst 0xA5 8 :=
  ⟨((C5_lsb_first_out 0xA5 csiIdle .HIGH).1 (transferPolls 0 (levelsOf 0x80))
      (by decide)).trans (by decide),
    (C5_lsb_first_out 0xA5 csiIdle .HIGH).2.1 firstLow 3 rfl⟩

/-! ## The session protocol: a whole successful cycle (C1, C7) -/

theorem appendPattern_events_congr (n i : Nat) (c c2 : KH970Client)
    (hp : c.pattern = c2.pattern) (hd : c.bytesToSend = c2.bytesToSend) :
    (KH970Client.appendPattern n i c).2 = (KH970Client.appendPattern n i c2).2 := by
  induction n generalizing i c c2 with
  | zero => rfl
  | succ n ih =>
    simp only [KH970Client.appendPattern]
    rw [ih (i + 1) (c.append (c.pattern.getD i 0)).1 (c2.append (c2.pattern.getD i 0)).1
      (by simpa [KH970Client.append] using hp) (by simp [KH970Client.append, hd])]
    simp [KH970Client.append, hp, hd]

theorem process_row (q : Nat) (c : KH970Client) (hq : q = 0x05 ∨ q = 0x85) :
    c.process q =
      ({ (KH970Client.appendPattern 25 0 c).1 with
          pattern_row := (KH970Client.appendPattern 25 0 c).1.pattern_row + 1 },
        (KH970Client.appendPattern 25 0 c).2) := by
  rcases hq with rfl | rfl <;> simp [KH970Client.process]

theorem process_ping (c : KH970Client) :
    c.process 0x01 =
      if c.booted then c.append 0x8b
      else ({ (c.append 0x0b).1 with booted := true }, (c.append 0x0b).2) := by
  simp [KH970Client.process]

/-- The three shapes of a dispatch: the ping, a row request, or one table entry. -/
theorem process_cases (q : Nat) (c : KH970Client) :
    (c.process q).2 = (c.append 0x8b).2 ∨ (c.process q).2 = (c.append 0x0b).2 ∨
    (c.process q).2 = (KH970Client.appendPattern 25 0 c).2 ∨
    (c.process q).2 = (c.append (specResponse q)).2 := by
  by_cases h1 : q = 0x01
  · subst h1
    rw [process_ping]
    by_cases hb : c.booted = true
    · simp [hb]
    · simp [hb]
  · by_cases h5 : q = 0x05 ∨ q = 0x85
    · rw [process_row q c h5]
      simp
    · rw [process_single q c h1 (fun h => h5 (Or.inl h)) (fun h => h5 (Or.inr h))]
      simp

/-- The bytes the dispatcher appends depend only on the boot flag, the pattern
buffer and the queue depth. -/
theorem process_events_congr (q : Nat) (c c2 : KH970Client) (hb : c.booted = c2.booted)
    (hp : c.pattern = c2.pattern) (hd : c.bytesToSend = c2.bytesToSend) :
    (c.process q).2 = (c2.process q).2 := by
  by_cases h1 : q = 0x01
  · subst h1
    rw [process_ping, process_ping, hb]
    by_cases hb2 : c2.booted = true <;> simp [hb2, KH970Client.append, hd]
  · by_cases h5 : q = 0x05 ∨ q = 0x85
    · rw [process_row q c h5, process_row q c2 h5]
      exact appendPattern_events_congr 25 0 c c2 hp hd
    · rw [process_single q c h1 (fun h => h5 (Or.inl h)) (fun h => h5 (Or.inr h)),
        process_single q c2 h1 (fun h => h5 (Or.inl h)) (fun h => h5 (Or.inr h))]
      simp [KH970Client.append, hd]

theorem appendPattern_silent (n i : Nat) (c : KH970Client) :
    sent (KH970Client.appendPattern n i c).2 = [] ∧
    faults (KH970Client.appendPattern n i c).2 = 0 := by
  induction n generalizing i c with
  | zero => simp [KH970Client.appendPattern, sent, faults]
  | succ n ih =>
    obtain ⟨h1, h2⟩ := ih (i + 1) (c.append (c.pattern.getD i 0)).1
    simp only [KH970Client.appendPattern, sent_append, faults_append, h1, h2]
    simp [KH970Client.append, sent, faults]

/-- The dispatcher starts no transfer and never runs fault recovery. -/
theorem process_silent (q : Nat) (c : KH970Client) :
    sent (c.process q).2 = [] ∧ faults (c.process q).2 = 0 := by
  rcases process_cases q c with h | h | h | h <;> rw [h]
  · exact ⟨rfl, rfl⟩
  · exact ⟨rfl, rfl⟩
  · exact appendPattern_silent 25 0 c
  · exact ⟨rfl, rfl⟩

/-- The dispatcher on an empty queue: the queue then holds exactly the bytes
appended, between 1 and 25 of them. -/
theorem process_queue (q : Nat) (c : KH970Client) (h0 : c.bytesToSend = 0)
    (hl : c.outBytes.length = 32) :
    (c.process q).1.bytesToSend = (appended (c.process q).2).length ∧
    1 ≤ (appended (c.process q).2).length ∧ (appended (c.process q).2).length ≤ 25 ∧
    (c.process q).1.outBytes.length = 32 ∧
    (c.process q).1.outBytes.take (appended (c.process q).2).length =
      appended (c.process q).2 := by
  have key : ∀ v, (c.append v).1.bytesToSend = (appended (c.append v).2).length ∧
      1 ≤ (appended (c.append v).2).length ∧ (appended (c.append v).2).length ≤ 25 ∧
      (c.append v).1.outBytes.length = 32 ∧
      (c.append v).1.outBytes.take (appended (c.append v).2).length =
        appended (c.append v).2 := by
    intro v
    obtain ⟨a1, a2, a3, _, a5⟩ := append_spec v c (by omega) (by omega)
    rw [h0] at a1 a3
    simp only [Nat.zero_add, List.take_zero, List.nil_append] at a1 a3
    rw [a5]
    exact ⟨a1, by simp, by simp, a2.trans hl, a3⟩
  obtain ⟨p1, p2, p3, _, p5⟩ := appendPattern_spec 25 0 c (by omega) (by omega)
  rw [h0] at p1 p3
  simp only [Nat.zero_add, List.take_zero, List.nil_append] at p1 p3
  have plen : (appended (KH970Client.appendPattern 25 0 c).2).length = 25 := by
    rw [p5]; simp
  by_cases h1 : q = 0x01
  · subst h1
    by_cases hb : c.booted = true
    · have : c.process 0x01 = c.append 0x8b := by simp [KH970Client.process, hb]
      rw [this]; exact key _
    · have : c.process 0x01 = ({ (c.append 0x0b).1 with booted := true }, (c.append 0x0b).2) := by
        simp [KH970Client.process, hb]
      rw [this]; exact key _
  · by_cases h5 : q = 0x05 ∨ q = 0x85
    · have hproc : c.process q =
          ({ (KH970Client.appendPattern 25 0 c).1 with
              pattern_row := (KH970Client.appendPattern 25 0 c).1.pattern_row + 1 },
            (KH970Client.appendPattern 25 0 c).2) := by
        rcases h5 with rfl | rfl <;> simp [KH970Client.process]
      generalize KH970Client.appendPattern 25 0 c = r at p1 p2 p3 plen hproc
      rw [hproc]
      simp only [plen]
      exact ⟨p1, by omega, by omega, p2.trans hl, by rw [p3]⟩
    · rw [process_single q c h1 (fun h => h5 (Or.inl h)) (fun h => h5 (Or.inr h))]
      exact key _

theorem reverse_take (l : List Nat) (n : Nat) (h1 : 1 ≤ n) (h2 : n ≤ l.length) :
    (l.take n).reverse = l.getD (n - 1) 0 :: (l.take (n - 1)).reverse := by
  obtain ⟨k, rfl⟩ : ∃ k, n = k + 1 := ⟨n - 1, by omega⟩
  have hk : k < l.length := by omega
  rw [List.take_succ, List.reverse_append]
  simp [List.getD_eq_getElem?_getD, List.getElem?_eq_getElem hk]


theorem busy_poll (e : Env) (m : Machine) (h : (m.csi.update e).busy = true) :
    KH970Client.update e m = ({ m with csi := (m.csi.update e).csi }, (m.csi.update e).events) := by
  simp [KH970Client.update, h]

theorem delivered_busy (e : Env) (m : Machine) (h : (m.csi.update e).busy = true) :
    delivered e m = [] := by
  simp [delivered, h]

theorem delivered_idle (e : Env) (m : Machine) (h : m.csi.state = .STATE_IDLE) :
    delivered e m = [] := by
  simp [delivered, h]

theorem delivered_done (e : Env) (m : Machine) (h : (m.csi.update e).busy = false)
    (hs : m.csi.state ≠ .STATE_IDLE) : delivered e m = [m.csi.inByte] := by
  simp [delivered, h, hs, (CSI.update_not_busy e m.csi h).2.1]

/-- A poll on which the engine is still busy keeps the phase. -/
theorem phase_busy (q : Nat) (e : Env) (m : Machine) (recv snd : List Nat)
    (hp : Phase q m recv snd) (hb : (m.csi.update e).busy = true) :
    Phase q (KH970Client.update e m).1 recv snd ∧ delivered e m = [] ∧
    sent (KH970Client.update e m).2 = [] ∧ faults (KH970Client.update e m).2 = 0 := by
  have hk := CSI.update_busy e m.csi hb
  have hi : m.csi.state ≠ .STATE_IDLE := by
    intro h
    have := (CSI.update_idle e m.csi h).2.1
    rw [hb] at this
    exact absurd this (by decide)
  obtain ⟨s1, s2⟩ := CSI.update_silent e m.csi
  rw [busy_poll e m hb]
  refine ⟨?_, delivered_busy e m hb, s1, s2⟩
  obtain ⟨hl, hrest⟩ := hp
  refine ⟨hl, ?_⟩
  simp only at hrest ⊢
  cases hs : m.client.state <;> simp only [hs] at hrest ⊢
  · exact absurd hrest.1 hi
  · exact ⟨hk, hrest.2⟩
  · exact ⟨hk, hrest.2⟩
  · exact ⟨hk, hrest.2⟩
  · exact ⟨hk, hrest.2⟩

/-- A poll on which the engine reports idle, before the last transfer of the
cycle has completed: the session takes its next step. -/
theorem phase_done (q : Nat) (e : Env) (m : Machine) (recv snd recv2 : List Nat)
    (hp : Phase q m recv snd) (hb : (m.csi.update e).busy = false)
    (hr : recv = delivered e m ++ recv2) (hne : recv2 ≠ []) :
    ∃ snd2, Phase q (KH970Client.update e m).1 recv2 snd2 ∧
      snd = sent (KH970Client.update e m).2 ++ snd2 ∧
      faults (KH970Client.update e m).2 = 0 := by
  obtain ⟨hst, hin, hev⟩ := CSI.update_not_busy e m.csi hb
  obtain ⟨hl, hrest⟩ := hp
  obtain ⟨k, c⟩ := m
  simp only at hst hin hev hl hrest hb
  cases hs : c.state <;> simp only [hs] at hrest
  · -- STATE_INIT
    obtain ⟨hk, h0, hrv, hsn⟩ := hrest
    rw [delivered_idle e _ hk, List.nil_append] at hr
    subst hr
    have hu : KH970Client.update e ⟨k, c⟩ =
        (⟨((k.update e).csi.sendOut MSG_BEGIN).1, { c with state := .STATE_INIT_ACK }⟩,
          (k.update e).events ++ ((k.update e).csi.sendOut MSG_BEGIN).2) := by
      simp [KH970Client.update, hb, hs]
    have hpe := process_events_congr q { c with state := .STATE_INIT_ACK } c rfl rfl rfl
    refine ⟨[q] ++ (appended (c.process q).2).reverse ++ [MSG_END], ?_, ?_, ?_⟩
    · rw [hu]
      refine ⟨hl, ?_⟩
      simp only [hpe]
      exact ⟨by simp [CSI.sendOut], h0, hrv, trivial⟩
    · rw [hu, hsn, sent_append, hev]
      simp [sent, CSI.sendOut]
    · rw [hu, faults_append, hev]
      simp [faults, CSI.sendOut]
  · -- STATE_INIT_ACK
    obtain ⟨hk, h0, hrv, hsn⟩ := hrest
    rw [delivered_done e _ hb hk, hrv] at hr
    simp only [List.cons_append, List.nil_append, List.cons.injEq] at hr
    obtain ⟨hq, hr2⟩ := hr
    have hu : KH970Client.update e ⟨k, c⟩ =
        (⟨((k.update e).csi.sendOut q).1,
            { c with bedVal := q, state := .STATE_INIT_ACK_DONE }⟩,
          (k.update e).events ++ ((k.update e).csi.sendOut q).2) := by
      simp [KH970Client.update, hb, hs, hin, hq]
    have hpe := process_events_congr q
      { c with bedVal := q, state := .STATE_INIT_ACK_DONE } c rfl rfl rfl
    refine ⟨(appended (c.process q).2).reverse ++ [MSG_END], ?_, ?_, ?_⟩
    · rw [hu]
      refine ⟨hl, ?_⟩
      simp only [hpe]
      exact ⟨by simp [CSI.sendOut], h0, trivial, hr2.symm, trivial⟩
    · rw [hu, hsn, sent_append, hev]
      simp [sent, CSI.sendOut]
    · rw [hu, faults_append, hev]
      simp [faults, CSI.sendOut]
  · -- STATE_INIT_ACK_DONE
    obtain ⟨hk, h0, hbv, hrv, hsn⟩ := hrest
    rw [delivered_done e _ hb hk, hrv] at hr
    simp only [List.cons_append, List.nil_append, List.cons.injEq] at hr
    obtain ⟨hq, hr2⟩ := hr
    obtain ⟨p1, p2, p3, p4, p5⟩ := process_queue q c h0 hl
    obtain ⟨ps, pf⟩ := process_silent q c
    have hck : check (k.update e).csi.inByte MSG_BEGIN = (true, []) := by
      simp [check, hin, hq]
    have hu : KH970Client.update e ⟨k, c⟩ =
        (⟨((k.update e).csi.sendOut
              ({ (c.process q).1 with expectedByte := MSG_BEGIN } : KH970Client).top).1,
            { (c.process q).1 with
                expectedByte := MSG_BEGIN,
                lastSent := ({ (c.process q).1 with expectedByte := MSG_BEGIN } : KH970Client).top,
                state := .STATE_REPLY }⟩,
          (k.update e).events ++ (c.process q).2 ++
            [.readOutBytes (((c.process q).1.bytesToSend : Int) - 1)] ++
            ((k.update e).csi.sendOut
              ({ (c.process q).1 with expectedByte := MSG_BEGIN } : KH970Client).top).2) := by
      simp [KH970Client.update, hb, hs, hck, hbv]
    generalize c.process q = p at p1 p2 p3 p4 p5 ps pf hu hrv hsn hr2
    have hrt := reverse_take p.1.outBytes _ p2 (by omega)
    rw [p5] at hrt
    refine ⟨(p.1.outBytes.take (p.1.bytesToSend - 1)).reverse ++ [MSG_END], ?_, ?_, ?_⟩
    · rw [hu]
      refine ⟨p4, ?_⟩
      simp only [p1]
      refine ⟨by simp [CSI.sendOut], p2, by omega, rfl, ?_, trivial⟩
      rw [← hr2, p5]
    · rw [hu, hsn, hrt]
      simp only [sent_append, hev, ps, p1]
      simp [sent, CSI.sendOut, KH970Client.top, p1]
    · rw [hu]
      simp only [faults_append, hev, pf]
      simp [faults, CSI.sendOut]
  · -- STATE_REPLY
    obtain ⟨hk, hn1, hn2, hls, hrv, hsn⟩ := hrest
    rw [delivered_done e _ hb hk, hrv] at hr
    simp only [List.cons_append, List.nil_append, List.cons.injEq] at hr
    obtain ⟨hq, hr2⟩ := hr
    have hck : check (k.update e).csi.inByte c.expectedByte = (true, []) := by
      simp [check, hin, hq]
    have hdec : (c.bytesToSend + 255) % 256 = c.bytesToSend - 1 := by omega
    have hrt := reverse_take c.outBytes c.bytesToSend hn1 (by omega)
    by_cases hn : c.bytesToSend - 1 > 0
    · have hu : KH970Client.update e ⟨k, c⟩ =
          (⟨((k.update e).csi.sendOut (c.outBytes.getD (c.bytesToSend - 1 - 1) 0)).1,
              { c with expectedByte := c.lastSent, bytesToSend := c.bytesToSend - 1,
                       lastSent := c.outBytes.getD (c.bytesToSend - 1 - 1) 0 }⟩,
            (k.update e).events ++
              [.readOutBytes (((c.bytesToSend - 1 : Nat) : Int) - 1)] ++
              ((k.update e).csi.sendOut (c.outBytes.getD (c.bytesToSend - 1 - 1) 0)).2) := by
        simp [KH970Client.update, hb, hs, hck, hdec, hn, KH970Client.top]
      have hrt2 := reverse_take c.outBytes (c.bytesToSend - 1) (by omega) (by omega)
      refine ⟨(c.outBytes.take (c.bytesToSend - 1 - 1)).reverse ++ [MSG_END], ?_, ?_, ?_⟩
      · rw [hu]
        refine ⟨hl, ?_⟩
        simp only [hs]
        refine ⟨by simp [CSI.sendOut], by omega, by omega, rfl, ?_, trivial⟩
        rw [← hr2, hrt, hls]
        rfl
      · rw [hu, hsn, hrt2]
        simp only [sent_append, hev]
        simp [sent, CSI.sendOut]
      · rw [hu]
        simp only [faults_append, hev]
        simp [faults, CSI.sendOut]
    · have hn0 : c.bytesToSend = 1 := by omega
      have hu : KH970Client.update e ⟨k, c⟩ =
          (⟨((k.update e).csi.sendOut MSG_END).1,
              { c with expectedByte := c.lastSent, bytesToSend := 0,
                       state := .STATE_END_ACK }⟩,
            (k.update e).events ++ ((k.update e).csi.sendOut MSG_END).2) := by
        simp [KH970Client.update, hb, hs, hck, hn0]
      refine ⟨[], ?_, ?_, ?_⟩
      · rw [hu]
        refine ⟨hl, ?_⟩
        refine ⟨by simp [CSI.sendOut], rfl, ?_, rfl⟩
        rw [← hr2, hrt, hls, hn0]
        simp [KH970Client.top, hn0]
      · rw [hu, hsn, hn0]
        simp only [sent_append, hev]
        simp [sent, CSI.sendOut]
      · rw [hu]
        simp only [faults_append, hev]
        simp [faults, CSI.sendOut]
  · -- STATE_END_ACK
    obtain ⟨hk, h0, hrv, hsn⟩ := hrest
    rw [delivered_done e _ hb hk, hrv] at hr
    simp only [List.cons_append, List.nil_append, List.cons.injEq] at hr
    exact absurd hr.2.symm hne

/-- The poll that completes the END transfer: the session enters `STATE_END_DELAY`. -/
theorem phase_final (q : Nat) (e : Env) (m : Machine) (recv snd : List Nat)
    (hp : Phase q m recv snd) (hr : recv = delivered e m) :
    snd = sent (KH970Client.update e m).2 ∧
    faults (KH970Client.update e m).2 = 0 ∧
    (KH970Client.update e m).1.client.state = .STATE_END_DELAY ∧
    (KH970Client.update e m).1.client.bytesToSend = 0 ∧
    (KH970Client.update e m).1.csi.state = .STATE_IDLE ∧
    (KH970Client.update e m).1.client.delayStartMillis = e.millis % ULONG := by
  obtain ⟨hl, hrest⟩ := hp
  obtain ⟨k, c⟩ := m
  simp only at hl hrest
  by_cases hb : (k.update e).busy = true
  · rw [delivered_busy e _ hb] at hr
    subst hr
    cases hs : c.state <;> simp [hs] at hrest
  · simp only [Bool.not_eq_true] at hb
    obtain ⟨hst, hin, hev⟩ := CSI.update_not_busy e k hb
    cases hs : c.state <;> simp only [hs] at hrest
    · obtain ⟨hk, h0, hrv, hsn⟩ := hrest
      rw [delivered_idle e _ hk, hrv] at hr
      simp at hr
    · obtain ⟨hk, h0, hrv, hsn⟩ := hrest
      rw [delivered_done e _ hb hk, hrv] at hr
      simp at hr
    · obtain ⟨hk, h0, hbv, hrv, hsn⟩ := hrest
      rw [delivered_done e _ hb hk, hrv] at hr
      simp at hr
    · obtain ⟨hk, hn1, hn2, hls, hrv, hsn⟩ := hrest
      rw [delivered_done e _ hb hk, hrv] at hr
      simp only [List.cons.injEq, List.reverse_eq_nil_iff, List.take_eq_nil_iff] at hr
      rcases hr.2 with h | h
      · omega
      · rw [h] at hl
        simp at hl
    · obtain ⟨hk, h0, hrv, hsn⟩ := hrest
      rw [delivered_done e _ hb hk, hrv] at hr
      simp only [List.cons.injEq, and_true] at hr
      have hck : check (k.update e).csi.inByte c.expectedByte = (true, []) := by
        simp [check, hin, hr]
      have hu : KH970Client.update e ⟨k, c⟩ =
          (⟨(k.update e).csi,
              { c with delayStartMillis := e.millis % ULONG, state := .STATE_END_DELAY }⟩,
            (k.update e).events) := by
        simp [KH970Client.update, hb, hs, hck, DEBUG_DELAY_MS]
      rw [hu, hsn, hev]
      exact ⟨rfl, rfl, rfl, h0, hst, rfl⟩

theorem received_append (es es2 : List Env) (m : Machine) :
    received (es ++ es2) m = received es m ++ received es2 (Machine.run es m).1 := by
  induction es generalizing m with
  | nil => simp [received, Machine.run]
  | cons e es ih => simp [received, Machine.run, ih]

/-- A whole successful cycle, from any phase of it: if the transfers still to
complete deliver exactly `recv`, the last of them on the last poll, then the
bytes still given to `sendOut` are exactly `snd`, fault recovery never runs, and
the session ends in `STATE_END_DELAY` with an empty queue and an idle engine. -/
theorem session_core (q : Nat) (e : Env) (es : List Env) (m : Machine) (recv snd : List Nat)
    (hp : Phase q m recv snd) (hr : received (es ++ [e]) m = recv)
    (hlast : received es m ≠ received (es ++ [e]) m) :
    sent (Machine.run (es ++ [e]) m).2 = snd ∧
    faults (Machine.run (es ++ [e]) m).2 = 0 ∧
    (Machine.run (es ++ [e]) m).1.client.state = .STATE_END_DELAY ∧
    (Machine.run (es ++ [e]) m).1.client.bytesToSend = 0 ∧
    (Machine.run (es ++ [e]) m).1.csi.state = .STATE_IDLE ∧
    (Machine.run (es ++ [e]) m).1.client.delayStartMillis = e.millis % ULONG := by
  induction es generalizing m recv snd with
  | nil =>
    simp only [List.nil_append, received, List.append_nil] at hr
    obtain ⟨f1, f2, f3, f4, f5, f6⟩ := phase_final q e m recv snd hp hr.symm
    simp only [List.nil_append, Machine.run, List.append_nil]
    exact ⟨f1.symm, f2, f3, f4, f5, f6⟩
  | cons e1 es ih =>
    rw [List.cons_append] at hr hlast ⊢
    simp only [received] at hr hlast
    have hlast2 : received es (KH970Client.update e1 m).1 ≠
        received (es ++ [e]) (KH970Client.update e1 m).1 := by
      intro h
      exact hlast (by rw [h])
    have hne : received (es ++ [e]) (KH970Client.update e1 m).1 ≠ [] := by
      intro h
      rw [received_append] at h hlast2
      simp only [List.append_eq_nil] at h
      rw [h.1, h.2] at hlast2
      exact hlast2 rfl
    simp only [Machine.run, sent_append, faults_append]
    by_cases hb : (m.csi.update e1).busy = true
    · obtain ⟨b1, b2, b3, b4⟩ := phase_busy q e1 m recv snd hp hb
      rw [b2, List.nil_append] at hr
      obtain ⟨i1, i2, i3⟩ := ih _ recv snd b1 hr hlast2
      rw [b3, b4, i1, i2]
      exact ⟨rfl, rfl, i3⟩
    · simp only [Bool.not_eq_true] at hb
      obtain ⟨snd2, d1, d2, d3⟩ := phase_done q e1 m recv snd _ hp hb hr.symm hne
      obtain ⟨i1, i2, i3⟩ := ih _ _ snd2 d1 rfl hlast2
      rw [d3, i1, i2, d2]
      exact ⟨rfl, rfl, i3⟩

/-- In `STATE_END_DELAY` with an idle engine, `update()` moves to `STATE_INIT`
exactly when more than `DEBUG_DELAY_MS` milliseconds have elapsed. -/
theorem end_delay_step (e : Env) (m : Machine) (hs : m.client.state = .STATE_END_DELAY)
    (hk : m.csi.state = .STATE_IDLE) :
    (KH970Client.update e m).1.client.state =
      if usub e.millis m.client.delayStartMillis > DEBUG_DELAY_MS then .STATE_INIT
      else .STATE_END_DELAY := by
  obtain ⟨_, hb, _⟩ := CSI.update_idle e m.csi hk
  simp only [KH970Client.update, hb, hs]
  split_ifs <;> simp_all

/-- C1: for every query byte `q`, boot flag and pattern buffer, starting in
`STATE_INIT` with an empty queue and an idle engine: along any sequence of
polls on which the completed transfers deliver, in order, `q`, BEGIN, BEGIN and
then the response bytes in the order sent (the END transfer, completing on the
last poll, delivering the last response byte), `update()` starts transfers with
exactly BEGIN, `q`, the response bytes dispatched for `q` (last appended first)
and END, never invokes `force_reboot`, and ends with an empty queue in
`STATE_END_DELAY`; from there a later `update()` moves to `STATE_INIT` once more
than `DEBUG_DELAY_MS` milliseconds have elapsed since that last poll. -/
theorem C1_session_cycle (q : Nat) (m : Machine) (es : List Env) (e eL : Env)
    (hl : m.client.outBytes.length = 32) (hi : m.client.state = .STATE_INIT)
    (h0 : m.client.bytesToSend = 0) (hk : m.csi.state = .STATE_IDLE)
    (hr : received (es ++ [e]) m =
      [q, MSG_BEGIN, MSG_BEGIN] ++ (appended (m.client.process q).2).reverse)
    (hlast : received es m ≠ received (es ++ [e]) m) :
    sent (Machine.run (es ++ [e]) m).2 =
      [MSG_BEGIN, q] ++ (appended (m.client.process q).2).reverse ++ [MSG_END] ∧
    faults (Machine.run (es ++ [e]) m).2 = 0 ∧
    (Machine.run (es ++ [e]) m).1.client.state = .STATE_END_DELAY ∧
    (Machine.run (es ++ [e]) m).1.client.bytesToSend = 0 ∧
    (KH970Client.update eL (Machine.run (es ++ [e]) m).1).1.client.state =
      if usub eL.millis (e.millis % ULONG) > DEBUG_DELAY_MS then .STATE_INIT
      else .STATE_END_DELAY := by
  have hp : Phase q m ([q, MSG_BEGIN, MSG_BEGIN] ++ (appended (m.client.process q).2).reverse)
      ([MSG_BEGIN, q] ++ (appended (m.client.process q).2).reverse ++ [MSG_END]) := by
    simp [Phase, hi, hk, h0, hl]
  obtain ⟨c1, c2, c3, c4, c5, c6⟩ := session_core q e es m _ _ hp hr hlast
  refine ⟨c1, c2, c3, c4, ?_⟩
  rw [end_delay_step eL _ c3 c5, c6]

/-- Witness for C1: a whole session for the query `0x80` on a fresh machine,
every transfer driven bit by bit through the engine. -/
theorem C1_session_cycle_witness :
    sent (Machine.run (sessionPolls ++ [pollAt 76 .HIGH .HIGH]) machine0).2 =
      [0x47, 0x80, 0x07, 0x87] ∧
    faults (Machine.run (sessionPolls ++ [pollAt 76 .HIGH .HIGH]) machine0).2 = 0 ∧
    (KH970Client.update (pollAt 82 .HIGH .HIGH)
      (Machine.run (sessionPolls ++ [pollAt 76 .HIGH .HIGH]) machine0).1).1.client.state =
      .STATE_INIT :=
  ⟨(C1_session_cycle 0x80 machine0 sessionPolls (pollAt 76 .HIGH .HIGH) (pollAt 82 .HIGH .HIGH)
      (by decide) rfl rfl rfl (by decide) (by decide)).1.trans (by decide),
    (C1_session_cycle 0x80 machine0 sessionPolls (pollAt 76 .HIGH .HIGH) (pollAt 82 .HIGH .HIGH)
      (by decide) rfl rfl rfl (by decide) (by decide)).2.1,
    (C1_session_cycle 0x80 machine0 sessionPolls (pollAt 76 .HIGH .HIGH) (pollAt 82 .HIGH .HIGH)
      (by decide) rfl rfl rfl (by decide) (by decide)).2.2.2.2.trans (by decide)⟩

theorem usub_int (a b : Nat) :
    ((usub a b : Nat) : Int) = ((a : Int) - (b : Int)) % 4294967296 := by
  simp only [usub, ULONG]
  omega

theorem usub_wrap (d t : Nat) (ht : t < ULONG) : usub ((d + t) % ULONG) d = t := by
  simp only [usub, ULONG] at *
  omega

theorem check_eq (a b : Nat) :
    check a b = if a = b then (true, []) else (false, force_reboot) := by
  unfold check
  by_cases h : a = b <;> simp [h]

/-- C17: in `STATE_TRANSFER` a call of `CSI::update` performs a half-step exactly
when the elapsed time since the last edge, `(now - delayStartMicros)` modulo
2^32, is at least 50; below 50 the call changes nothing, performs no effect and
returns true.  A half-step advances `bitIndex`, records a new timestamp and
either emits a bit and raises the clock (even index) or samples data-in and
lowers the clock (odd index).  The elapsed time is 50 exactly 50 microseconds
after an edge, also when the counter wrapped in between. -/
theorem C17_half_period (e : Env) (k : CSI) (hs : k.state = .STATE_TRANSFER) :
    ((usub e.micros k.delayStartMicros : Nat) : Int) =
      ((e.micros : Int) - (k.delayStartMicros : Int)) % 4294967296 ∧
    (usub e.micros k.delayStartMicros < 50 →
      (k.update e).csi = k ∧ (k.update e).busy = true ∧ (k.update e).events = []) ∧
    (50 ≤ usub e.micros k.delayStartMicros →
      (k.update e).csi.bitIndex = (k.bitIndex + 1) % 256 ∧
      (k.update e).csi.delayStartMicros = e.micros2 % ULONG ∧
      (k.update e).busy = true ∧
      (k.bitIndex % 2 = 0 →
        (k.update e).events =
          [.digitalWrite .KH_MOSI (if k.outByte % 2 = 1 then .HIGH else .LOW),
           .digitalWrite .KH_SCK .HIGH] ∧
        (k.update e).csi.outByte = k.outByte / 2 ∧ (k.update e).csi.inByte = k.inByte) ∧
      (k.bitIndex % 2 ≠ 0 →
        (k.update e).events = [.digitalRead .KH_MISO e.miso, .digitalWrite .KH_SCK .LOW] ∧
        (k.update e).csi.inByte =
          (if e.miso = .LOW then (k.inByte / 2) ||| 0x80 else k.inByte / 2) ∧
        (k.update e).csi.outByte = k.outByte)) ∧
    (∀ d : Nat, usub ((d + 50) % ULONG) d = 50) := by
  refine ⟨usub_int _ _, ?_, ?_, fun d => usub_wrap d 50 (by decide)⟩
  · intro hlt
    have : usub e.micros k.delayStartMicros < CLOCK_PERIOD / 2 := hlt
    simp [CSI.update, hs, this]
  · intro hge
    have hn : ¬ usub e.micros k.delayStartMicros < CLOCK_PERIOD / 2 := by
      show ¬ usub e.micros k.delayStartMicros < 50
      omega
    obtain ⟨o, a, b, s, d⟩ := k
    simp only at hs hn
    subst hs
    simp only [CSI.update, hn, if_false]
    by_cases hb : b % 2 = 0
    · simp only [hb, if_true]
      split_ifs <;> simp
    · simp only [hb, if_false]
      split_ifs <;> simp

/-- Witness for C17: an edge 10 microseconds before the counter wraps; the
poll 49 microseconds later changes nothing, the poll 50 microseconds later
performs the half-step. -/
theorem C17_half_period_witness :
    (csiNearWrap.update envTooEarly).csi = csiNearWrap ∧
    (csiNearWrap.update envWrapped).csi.bitIndex = 5 :=
  ⟨((C17_half_period envTooEarly csiNearWrap rfl).2.1 (by decide)).1,
    ((C17_half_period envWrapped csiNearWrap rfl).2.2.1 (by decide)).1.trans (by decide)⟩

/-- C18: when the engine reports idle, in `STATE_END_ACK` with a matching echo
`update()` records the millisecond timestamp and moves to `STATE_END_DELAY`
(the configured delay is 5, which is positive); in `STATE_END_DELAY` it moves to
`STATE_INIT` exactly when the elapsed time `(now - stamp)` modulo 2^32 is
strictly greater than 5 and otherwise leaves the client unchanged; no transfer
is started in either step and the engine stays idle. -/
theorem C18_end_delay (e : Env) (m : Machine) (hb : (m.csi.update e).busy = false) :
    DEBUG_DELAY_MS = 5 ∧
    (m.client.state = .STATE_END_ACK → (m.csi.update e).csi.inByte = m.client.expectedByte →
      (KH970Client.update e m).1.client =
        { m.client with delayStartMillis := e.millis % ULONG, state := .STATE_END_DELAY } ∧
      (KH970Client.update e m).1.csi.state = .STATE_IDLE ∧
      sent (KH970Client.update e m).2 = [] ∧ faults (KH970Client.update e m).2 = 0) ∧
    (m.client.state = .STATE_END_DELAY →
      (KH970Client.update e m).1.client =
        (if usub e.millis m.client.delayStartMillis > 5
          then { m.client with state := .STATE_INIT } else m.client) ∧
      (KH970Client.update e m).1.csi.state = .STATE_IDLE ∧
      sent (KH970Client.update e m).2 = [] ∧ faults (KH970Client.update e m).2 = 0) ∧
    ((usub e.millis m.client.delayStartMillis : Nat) : Int) =
      ((e.millis : Int) - (m.client.delayStartMillis : Int)) % 4294967296 := by
  obtain ⟨hst, hin, hev⟩ := CSI.update_not_busy e m.csi hb
  refine ⟨rfl, ?_, ?_, usub_int _ _⟩
  · intro hs hx
    simp [KH970Client.update, hb, hs, check_eq, hx, hev, hst, DEBUG_DELAY_MS, sent, faults]
  · intro hs
    by_cases hu : usub e.millis m.client.delayStartMillis > 5
    · simp [KH970Client.update, hb, hs, DEBUG_DELAY_MS, hu, hst, hev, sent, faults]
    · simp [KH970Client.update, hb, hs, DEBUG_DELAY_MS, hu, hst, hev, sent, faults]

/-- Witness for C18: the END transfer completes with the expected byte at
millisecond 1; six milliseconds after the stamp 1000 the delay has not elapsed
beyond 5 only at 1005, and has at 1006. -/
theorem C18_end_delay_witness :
    (KH970Client.update envHigh endAck).1.client.state = .STATE_END_DELAY ∧
    (KH970Client.update envHigh endAck).1.client.delayStartMillis = 1 ∧
    (KH970Client.update (pollAt 1005 .HIGH .HIGH) endDelay).1.client.state = .STATE_END_DELAY ∧
    (KH970Client.update (pollAt 1006 .HIGH .HIGH) endDelay).1.client.state = .STATE_INIT := by
  have h1 := ((C18_end_delay envHigh endAck (by decide)).2.1 rfl (by decide)).1
  have h2 := ((C18_end_delay (pollAt 1005 .HIGH .HIGH) endDelay (by decide)).2.2.1 rfl).1
  have h3 := ((C18_end_delay (pollAt 1006 .HIGH .HIGH) endDelay (by decide)).2.2.1 rfl).1
  refine ⟨?_, ?_, ?_, ?_⟩
  · rw [h1]
  · rw [h1]; decide
  · rw [h2]; decide
  · rw [h3]; decide

/-! ## Transfers start on an idle engine (C19) -/

/-- Every call of `update()` starts at most one transfer, and only on the
engine as `CSI::update` left it after returning false. -/
theorem update_sent (e : Env) (m : Machine) :
    sent (KH970Client.update e m).2 = [] ∨
    ∃ v, sent (KH970Client.update e m).2 = [v] ∧ (m.csi.update e).busy = false ∧
      (KH970Client.update e m).1.csi = ((m.csi.update e).csi.sendOut v).1 := by
  obtain ⟨k, c⟩ := m
  obtain ⟨s1, _⟩ := CSI.update_silent e k
  by_cases hb : (k.update e).busy = true
  · left
    simp [KH970Client.update, hb, s1]
  · simp only [Bool.not_eq_true] at hb
    obtain ⟨ps, _⟩ := process_silent c.bedVal c
    have key : ∀ r : Machine × List Event, KH970Client.update e ⟨k, c⟩ = r →
        (sent r.2 = [] ∨ ∃ v, sent r.2 = [v] ∧ r.1.csi = ((k.update e).csi.sendOut v).1) →
        sent (KH970Client.update e ⟨k, c⟩).2 = [] ∨
        ∃ v, sent (KH970Client.update e ⟨k, c⟩).2 = [v] ∧ (k.update e).busy = false ∧
          (KH970Client.update e ⟨k, c⟩).1.csi = ((k.update e).csi.sendOut v).1 := by
      intro r hr h
      rw [hr]
      rcases h with h | ⟨v, h1, h2⟩
      · exact Or.inl h
      · exact Or.inr ⟨v, h1, hb, h2⟩
    apply key _ rfl
    simp only [KH970Client.update, hb, check_eq]
    generalize c.process c.bedVal = p at ps
    cases hs : c.state <;> simp only [hs] <;> split_ifs <;>
      simp [sent_append, s1, ps, sent, CSI.sendOut, force_reboot]

/-- C19: every `sendOut` call made by `update()`, in any state of session and
engine (hence in every reachable one), happens on an idle engine: a call of
`update()` that starts a transfer starts exactly one, on a call where
`CSI::update` returned false, and `CSI::update` returns false only when it
leaves the engine in `STATE_IDLE`; when `CSI::update` returns true, `update()`
does nothing beyond the engine step. -/
theorem C19_transfers_start_idle (e : Env) (m : Machine) :
    (sent (KH970Client.update e m).2 ≠ [] →
      (m.csi.update e).busy = false ∧ (m.csi.update e).csi.state = .STATE_IDLE ∧
      ∃ v, sent (KH970Client.update e m).2 = [v] ∧
        (KH970Client.update e m).1.csi = ((m.csi.update e).csi.sendOut v).1) ∧
    ((m.csi.update e).busy = false → (m.csi.update e).csi.state = .STATE_IDLE) ∧
    ((m.csi.update e).busy = true →
      KH970Client.update e m = ({ m with csi := (m.csi.update e).csi }, (m.csi.update e).events) ∧
      sent (KH970Client.update e m).2 = []) := by
  refine ⟨?_, fun hb => (CSI.update_not_busy e m.csi hb).1, ?_⟩
  · intro hne
    rcases update_sent e m with h | ⟨v, h1, h2, h3⟩
    · exact absurd h hne
    · exact ⟨h2, (CSI.update_not_busy e m.csi h2).1, v, h1, h3⟩
  · intro hb
    have hu := busy_poll e m hb
    refine ⟨hu, ?_⟩
    rw [hu]
    exact (CSI.update_silent e m.csi).1

/-- Witness for C19: the first `update()` of a fresh machine starts the BEGIN
transfer on the idle engine; the next one finds the engine busy and starts
nothing. -/
theorem C19_transfers_start_idle_witness :
    (machine0.csi.update envHigh).csi.state = .STATE_IDLE ∧
    sent (KH970Client.update envHigh (KH970Client.update envHigh machine0).1).2 = [] :=
  ⟨((C19_transfers_start_idle envHigh machine0).1 (by decide)).2.1,
    ((C19_transfers_start_idle envHigh (KH970Client.update envHigh machine0).1).2.2
      (by decide)).2⟩

/-! ## A mismatch changes nothing (C20) -/

theorem stores_append (a b : List Event) : stores (a ++ b) = stores a ++ stores b := by
  induction a with
  | nil => rfl
  | cons x t ih => cases x <;> simp [stores, ih]

theorem loads_append (a b : List Event) : loads (a ++ b) = loads a ++ loads b := by
  induction a with
  | nil => rfl
  | cons x t ih => cases x <;> simp [loads, ih]

/-- The engine touches neither the queue nor the dispatcher. -/
theorem CSI.update_no_queue (e : Env) (k : CSI) :
    stores (k.update e).events = [] ∧ loads (k.update e).events = [] ∧
    appended (k.update e).events = [] := by
  cases k with
  | mk o i b s d =>
    cases s <;> simp only [CSI.update] <;> (try split_ifs) <;> simp [stores, loads, appended]

/-- C20: when `update()` detects a handshake mismatch (in `STATE_INIT_ACK_DONE`,
`STATE_REPLY` or `STATE_END_ACK`, received byte different from the expected
one), it leaves the session state, the queue contents and depth,
`expectedByte`, `lastSent`, the boot flag, the row counter and the pattern
buffer unchanged, starts no transfer, and does not call the dispatcher: no byte
is appended. -/
theorem C20_mismatch_atomic (e : Env) (m : Machine) (h : mismatch e m = true) :
    (KH970Client.update e m).1.client.state = m.client.state ∧
    (KH970Client.update e m).1.client.outBytes = m.client.outBytes ∧
    (KH970Client.update e m).1.client.bytesToSend = m.client.bytesToSend ∧
    (KH970Client.update e m).1.client.expectedByte = m.client.expectedByte ∧
    (KH970Client.update e m).1.client.lastSent = m.client.lastSent ∧
    (KH970Client.update e m).1.client.booted = m.client.booted ∧
    (KH970Client.update e m).1.client.pattern_row = m.client.pattern_row ∧
    (KH970Client.update e m).1.client.pattern = m.client.pattern ∧
    (KH970Client.update e m).1.client = m.client ∧
    sent (KH970Client.update e m).2 = [] ∧
    appended (KH970Client.update e m).2 = [] ∧
    stores (KH970Client.update e m).2 = [] := by
  obtain ⟨s1, _⟩ := mismatch_step e m h
  rw [s1]
  exact ⟨rfl, rfl, rfl, rfl, rfl, rfl, rfl, rfl, rfl, rfl, rfl, rfl⟩

/-- Witness for C20: a wrong echo in `STATE_INIT_ACK_DONE` with the row request
`0x05` captured: nothing is appended and the client is unchanged. -/
theorem C20_mismatch_atomic_witness :
    mismatch envHigh badAckDone = true ∧
    (KH970Client.update envHigh badAckDone).1.client = badAckDone.client ∧
    appended (KH970Client.update envHigh badAckDone).2 = [] :=
  ⟨by decide, (C20_mismatch_atomic envHigh badAckDone (by decide)).2.2.2.2.2.2.2.2.1,
    (C20_mismatch_atomic envHigh badAckDone (by decide)).2.2.2.2.2.2.2.2.2.2.1⟩

/-! ## The dispatcher: depth and inputs (C15, C16) -/

/-- The depth after the pattern loop, as long as the 8-bit depth does not wrap. -/
theorem appendPattern_depth (n i : Nat) (c : KH970Client) (h : c.bytesToSend + n ≤ 255) :
    (KH970Client.appendPattern n i c).1.bytesToSend = c.bytesToSend + n ∧
    stores (KH970Client.appendPattern n i c).2 = List.range' c.bytesToSend n := by
  induction n generalizing i c with
  | zero => simp [KH970Client.appendPattern, stores]
  | succ n ih =>
    have h1 : (c.append (c.pattern.getD i 0)).1.bytesToSend = c.bytesToSend + 1 := by
      show (c.bytesToSend + 1) % 256 = c.bytesToSend + 1
      omega
    obtain ⟨i1, i2⟩ := ih (i + 1) (c.append (c.pattern.getD i 0)).1 (by rw [h1]; omega)
    simp only [KH970Client.appendPattern, stores_append]
    rw [i1, i2, h1]
    refine ⟨by omega, ?_⟩
    simp [KH970Client.append, stores, List.range'_succ]

/-- The depth after a dispatch and the indices it stores at, as long as the
8-bit depth does not wrap. -/
theorem process_depth (q : Nat) (c : KH970Client)
    (h : c.bytesToSend + (if q = 0x05 ∨ q = 0x85 then 25 else 1) ≤ 255) :
    (c.process q).1.bytesToSend =
      c.bytesToSend + (if q = 0x05 ∨ q = 0x85 then 25 else 1) ∧
    stores (c.process q).2 =
      List.range' c.bytesToSend (if q = 0x05 ∨ q = 0x85 then 25 else 1) := by
  have hone : ∀ v, (c.append v).1.bytesToSend = c.bytesToSend + 1 ∧
      stores (c.append v).2 = List.range' c.bytesToSend 1 := by
    intro v
    refine ⟨?_, by simp [KH970Client.append, stores]⟩
    show (c.bytesToSend + 1) % 256 = c.bytesToSend + 1
    split_ifs at h <;> omega
  by_cases h1 : q = 0x01
  · subst h1
    rw [process_ping]
    simp only [show ¬ ((1 : Nat) = 5 ∨ (1 : Nat) = 133) by decide, if_false]
    by_cases hb : c.booted = true
    · simp only [hb, if_true]; exact hone _
    · simp only [hb]; exact hone _
  · by_cases h5 : q = 0x05 ∨ q = 0x85
    · rw [process_row q c h5, if_pos h5]
      rw [if_pos h5] at h
      exact appendPattern_depth 25 0 c h
    · rw [process_single q c h1 (fun h => h5 (Or.inl h)) (fun h => h5 (Or.inr h)), if_neg h5]
      exact hone _

theorem appendPattern_depth_congr (n i : Nat) (c c2 : KH970Client)
    (hd : c.bytesToSend = c2.bytesToSend) :
    (KH970Client.appendPattern n i c).1.bytesToSend =
      (KH970Client.appendPattern n i c2).1.bytesToSend := by
  induction n generalizing i c c2 with
  | zero => exact hd
  | succ n ih =>
    simp only [KH970Client.appendPattern]
    exact ih (i + 1) _ _ (by simp [KH970Client.append, hd])

/-- C16: for every query byte and any two client states that agree on the boot
flag, the pattern buffer and the queue depth, `process` performs the same
appends (same indices, same bytes) and yields the same boot flag and the same
depth, whatever the row counter, `expectedByte`, `lastSent`, session state,
timestamp and prior queue contents of the two states are. -/
theorem C16_dispatch_inputs (q : Nat) (c c2 : KH970Client) (hb : c.booted = c2.booted)
    (hp : c.pattern = c2.pattern) (hd : c.bytesToSend = c2.bytesToSend) :
    (c.process q).2 = (c2.process q).2 ∧
    appended (c.process q).2 = appended (c2.process q).2 ∧
    (c.process q).1.booted = (c2.process q).1.booted ∧
    (c.process q).1.bytesToSend = (c2.process q).1.bytesToSend ∧
    (c.process q).1.pattern = (c2.process q).1.pattern := by
  have he := process_events_congr q c c2 hb hp hd
  refine ⟨he, by rw [he], by rw [process_booted, process_booted, hb], ?_, ?_⟩
  · by_cases h1 : q = 0x01
    · subst h1
      rw [process_ping, process_ping, hb]
      by_cases hb2 : c2.booted = true <;> simp [hb2, KH970Client.append, hd]
    · by_cases h5 : q = 0x05 ∨ q = 0x85
      · rw [process_row q c h5, process_row q c2 h5]
        exact appendPattern_depth_congr 25 0 c c2 hd
      · rw [process_single q c h1 (fun h => h5 (Or.inl h)) (fun h => h5 (Or.inr h)),
          process_single q c2 h1 (fun h => h5 (Or.inl h)) (fun h => h5 (Or.inr h))]
        simp [KH970Client.append, hd]
  · by_cases h1 : q = 0x01
    · subst h1
      rw [process_ping, process_ping, hb]
      by_cases hb2 : c2.booted = true <;> simp [hb2, KH970Client.append, hp]
    · by_cases h5 : q = 0x05 ∨ q = 0x85
      · rw [process_row q c h5, process_row q c2 h5]
        show (KH970Client.appendPattern 25 0 c).1.pattern =
          (KH970Client.appendPattern 25 0 c2).1.pattern
        rw [(appendPattern_frame 25 0 c).2.1, (appendPattern_frame 25 0 c2).2.1, hp]
      · rw [process_single q c h1 (fun h => h5 (Or.inl h)) (fun h => h5 (Or.inr h)),
          process_single q c2 h1 (fun h => h5 (Or.inl h)) (fun h => h5 (Or.inr h))]
        simp [KH970Client.append, hp]

/-- Witness for C16: two clients that differ in queue contents, acknowledgment
bytes, captured query, timestamp, session state and row counter answer the row
request with the same appends. -/
theorem C16_dispatch_inputs_witness :
    (client0.process 0x05).2 = (clientOther.process 0x05).2 ∧
    (client0.process 0x01).1.booted = (clientOther.process 0x01).1.booted :=
  ⟨(C16_dispatch_inputs 0x05 client0 clientOther rfl rfl rfl).1,
    (C16_dispatch_inputs 0x01 client0 clientOther rfl rfl rfl).2.2.1⟩

/-! ## Reachable states: the queue stays within bounds (C11, C12) -/

theorem appendPattern_no_loads (n i : Nat) (c : KH970Client) :
    loads (KH970Client.appendPattern n i c).2 = [] := by
  induction n generalizing i c with
  | zero => rfl
  | succ n ih =>
    simp only [KH970Client.appendPattern, loads_append, ih]
    rfl

/-- The dispatcher never reads the queue. -/
theorem process_no_loads (q : Nat) (c : KH970Client) : loads (c.process q).2 = [] := by
  rcases process_cases q c with h | h | h | h <;> rw [h]
  · rfl
  · rfl
  · exact appendPattern_no_loads 25 0 c
  · rfl

/-- A call of `update()` from a state satisfying the session invariant: the
invariant is kept, every store is at the index that continues from 0, below
25, every read of the top of the queue is at an index in `0 .. 24`, and the
depth only ever changes to the dispatched count or by one step down. -/
theorem reach_update (e : Env) (m : Machine) (h : Reach m) :
    Reach (KH970Client.update e m).1 ∧
    stores (KH970Client.update e m).2 = List.range (stores (KH970Client.update e m).2).length ∧
    (stores (KH970Client.update e m).2).length ≤ 25 ∧
    (stores (KH970Client.update e m).2 ≠ [] → m.client.bytesToSend = 0) ∧
    (∀ i ∈ loads (KH970Client.update e m).2, 0 ≤ i ∧ i < 25) ∧
    (m.client.state = .STATE_REPLY →
      (KH970Client.update e m).1.client.bytesToSend = m.client.bytesToSend ∨
      (KH970Client.update e m).1.client.bytesToSend + 1 = m.client.bytesToSend) := by
  obtain ⟨k, c⟩ := m
  obtain ⟨q1, q2, _⟩ := CSI.update_no_queue e k
  by_cases hb : (k.update e).busy = true
  · rw [busy_poll e _ hb]
    refine ⟨h, ?_, ?_, ?_, ?_, ?_⟩ <;> simp [q1, q2]
  · simp only [Bool.not_eq_true] at hb
    simp only [Reach] at h
    simp only [KH970Client.update, hb, check_eq, Reach]
    cases hs : c.state <;> simp only [hs] at h ⊢
    · simp [stores_append, loads_append, q1, q2, stores, loads, CSI.sendOut, h]
    · simp [stores_append, loads_append, q1, q2, stores, loads, CSI.sendOut, h]
    · -- STATE_INIT_ACK_DONE
      by_cases hx : (k.update e).csi.inByte = MSG_BEGIN
      · obtain ⟨d1, d2⟩ := process_depth c.bedVal c (by rw [h]; split_ifs <;> omega)
        rw [h] at d1 d2
        have d3 := process_no_loads c.bedVal c
        generalize c.process c.bedVal = p at d1 d2 d3
        simp only [hx, if_true, Bool.not_true, Bool.false_eq_true, if_false]
        simp only [stores_append, loads_append, q1, q2, d2, List.nil_append]
        by_cases h5 : c.bedVal = 5 ∨ c.bedVal = 133
        · simp only [h5, if_true, Nat.zero_add] at d1 ⊢
          refine ⟨?_, ?_, ?_, ?_, ?_, ?_⟩
          · simp [d1]
          · simp [stores, CSI.sendOut, List.range_eq_range']
          · simp [stores, CSI.sendOut]
          · intro _; exact h
          · simp [loads, CSI.sendOut, d1, d3]
          · intro hh; cases hh
        · simp only [h5, if_false, Nat.zero_add] at d1 ⊢
          refine ⟨?_, ?_, ?_, ?_, ?_, ?_⟩
          · simp [d1]
          · simp [stores, CSI.sendOut, List.range_eq_range']
          · simp [stores, CSI.sendOut]
          · intro _; exact h
          · simp [loads, CSI.sendOut, d1, d3]
          · intro hh; cases hh
      · simp [hx, hs, stores_append, loads_append, q1, q2, stores, loads, force_reboot, h]
    · -- STATE_REPLY
      by_cases hx : (k.update e).csi.inByte = c.expectedByte
      · have hdec : (c.bytesToSend + 255) % 256 = c.bytesToSend - 1 := by omega
        simp only [hx, if_true, Bool.not_true, Bool.false_eq_true, if_false, hdec]
        by_cases hn : c.bytesToSend - 1 > 0
        · simp only [hn, if_true]
          simp [stores_append, loads_append, q1, q2, stores, loads, CSI.sendOut]
          omega
        · simp only [hn, if_false]
          simp [stores_append, loads_append, q1, q2, stores, loads, CSI.sendOut]
          omega
      · simp [hx, hs, stores_append, loads_append, q1, q2, stores, loads, force_reboot, h]
    · -- STATE_END_ACK
      by_cases hx : (k.update e).csi.inByte = c.expectedByte
      · simp [hx, stores_append, loads_append, q1, q2, stores, loads, DEBUG_DELAY_MS, h]
      · simp [hx, hs, stores_append, loads_append, q1, q2, stores, loads, force_reboot, h]
    · -- STATE_END_DELAY
      by_cases hu : usub e.millis c.delayStartMillis > DEBUG_DELAY_MS
      · simp [hu, q1, q2, h]
      · simp [hu, hs, q1, q2, h]

theorem reach_apply (o : Op) (m : Machine) (h : Reach m) :
    Reach (Machine.apply o m).1 ∧
    (∀ i ∈ stores (Machine.apply o m).2, i < 25) ∧
    (∀ i ∈ loads (Machine.apply o m).2, 0 ≤ i ∧ i < 25) := by
  cases o with
  | update e =>
    obtain ⟨r1, r2, r3, _, r5, _⟩ := reach_update e m h
    refine ⟨r1, ?_, r5⟩
    intro i hi
    change i ∈ stores (KH970Client.update e m).2 at hi
    rw [r2] at hi
    have := List.mem_range.mp hi
    omega
  | set_pattern d =>
    refine ⟨h, ?_, ?_⟩ <;> intro i hi <;> simp [Machine.apply, stores, loads] at hi

/-- The session invariant holds along every sequence of operations, and every
access to `outBytes` in its trace is at an index in `0 .. 24`. -/
theorem reach_exec (ops : List Op) (m : Machine) (h : Reach m) :
    Reach (Machine.exec ops m).1 ∧
    (∀ i ∈ stores (Machine.exec ops m).2, i < 25) ∧
    (∀ i ∈ loads (Machine.exec ops m).2, 0 ≤ i ∧ i < 25) := by
  induction ops generalizing m with
  | nil =>
    refine ⟨h, ?_, ?_⟩ <;> intro i hi <;> simp [Machine.exec, stores, loads] at hi
  | cons o os ih =>
    obtain ⟨a1, a2, a3⟩ := reach_apply o m h
    obtain ⟨b1, b2, b3⟩ := ih _ a1
    simp only [Machine.exec, stores_append, loads_append, List.mem_append]
    refine ⟨b1, ?_, ?_⟩
    · rintro i (hi | hi)
      · exact a2 i hi
      · exact b2 i hi
    · rintro i (hi | hi)
      · exact a3 i hi
      · exact b3 i hi

theorem reach_fresh (k : CSI) (junk : KH970Client) : Reach (Machine.fresh k junk) := by
  simp [Reach, Machine.fresh, KH970Client.new]

theorem reach_bounds (m : Machine) (h : Reach m) :
    m.client.bytesToSend ≤ 25 ∧ (m.client.state = .STATE_REPLY → 1 ≤ m.client.bytesToSend) ∧
    (m.client.state = .STATE_INIT_ACK_DONE → m.client.bytesToSend = 0) := by
  simp only [Reach] at h
  cases hs : m.client.state <;> simp only [hs] at h <;> simp [h]

/-- C11: in every state reachable from a freshly constructed client by any
sequence of `update()` and `set_pattern()` calls, under arbitrary line levels and
clock values, the queue depth `bytesToSend` is at most 25, hence never above the
capacity 32, and every store `append()` performed into `outBytes` was at an
index below 32.  The dispatcher is only ever invoked with an empty queue: in
`STATE_INIT_ACK_DONE` the depth is 0, and the stores of any further `update()`
are at the indices `0, 1, ..` in order, at most 25 of them. -/
theorem C11_queue_bounded (k : CSI) (junk : KH970Client) (ops : List Op) :
    (Machine.exec ops (Machine.fresh k junk)).1.client.bytesToSend ≤ 25 ∧
    (Machine.exec ops (Machine.fresh k junk)).1.client.bytesToSend ≤ 32 ∧
    (∀ i ∈ stores (Machine.exec ops (Machine.fresh k junk)).2, i < 32) ∧
    ((Machine.exec ops (Machine.fresh k junk)).1.client.state = .STATE_INIT_ACK_DONE →
      (Machine.exec ops (Machine.fresh k junk)).1.client.bytesToSend = 0) ∧
    (∀ e : Env,
      stores (KH970Client.update e (Machine.exec ops (Machine.fresh k junk)).1).2 =
        List.range
          (stores (KH970Client.update e (Machine.exec ops (Machine.fresh k junk)).1).2).length ∧
      (stores (KH970Client.update e (Machine.exec ops (Machine.fresh k junk)).1).2).length ≤ 25 ∧
      (stores (KH970Client.update e (Machine.exec ops (Machine.fresh k junk)).1).2 ≠ [] →
        (Machine.exec ops (Machine.fresh k junk)).1.client.bytesToSend = 0)) := by
  obtain ⟨r1, r2, _⟩ := reach_exec ops _ (reach_fresh k junk)
  obtain ⟨b1, _, b3⟩ := reach_bounds _ r1
  refine ⟨b1, by omega, ?_, b3, ?_⟩
  · intro i hi
    have := r2 i hi
    omega
  · intro e
    obtain ⟨_, u2, u3, u4, _⟩ := reach_update e _ r1
    exact ⟨u2, u3, u4⟩

set_option maxRecDepth 4000 in
/-- Witness for C11: a whole row session; after the dispatch of `0x05` the depth
is 25, the store at index 24 has happened, and at the end the queue is empty. -/
theorem C11_queue_bounded_witness :
    (Machine.exec rowOpsDispatched (Machine.fresh csiIdle client0)).1.client.bytesToSend = 25 ∧
    (24 ∈ stores (Machine.exec rowOpsDispatched (Machine.fresh csiIdle client0)).2 ∧
      24 < 32) ∧
    (Machine.exec rowOps (Machine.fresh csiIdle client0)).1.client.bytesToSend ≤ 25 :=
  ⟨by decide,
    ⟨by decide, (C11_queue_bounded csiIdle client0 rowOpsDispatched).2.2.1 24 (by decide)⟩,
    (C11_queue_bounded csiIdle client0 rowOps).1⟩

/-- C12: the session never pops from or reads the top of an empty queue.  Along
every sequence of `update()` and `set_pattern()` calls from a freshly
constructed client, every read `outBytes[bytesToSend - 1]` is at an index in
`0 .. 31`; in every reachable `STATE_REPLY`, the only state in which
`bytesToSend--` is executed, the depth is at least 1, and a further `update()`
leaves the depth as it is or exactly one lower: the 8-bit depth never wraps
below zero. -/
theorem C12_no_pop_when_empty (k : CSI) (junk : KH970Client) (ops : List Op) :
    (∀ i ∈ loads (Machine.exec ops (Machine.fresh k junk)).2, 0 ≤ i ∧ i ≤ 31) ∧
    ((Machine.exec ops (Machine.fresh k junk)).1.client.state = .STATE_REPLY →
      1 ≤ (Machine.exec ops (Machine.fresh k junk)).1.client.bytesToSend ∧
      ∀ e : Env,
        (KH970Client.update e (Machine.exec ops (Machine.fresh k junk)).1).1.client.bytesToSend =
          (Machine.exec ops (Machine.fresh k junk)).1.client.bytesToSend ∨
        (KH970Client.update e (Machine.exec ops (Machine.fresh k junk)).1).1.client.bytesToSend
          + 1 = (Machine.exec ops (Machine.fresh k junk)).1.client.bytesToSend) ∧
    (∀ e : Env, ∀ i ∈ loads (KH970Client.update e (Machine.exec ops (Machine.fresh k junk)).1).2,
      0 ≤ i ∧ i ≤ 31) := by
  obtain ⟨r1, _, r3⟩ := reach_exec ops _ (reach_fresh k junk)
  obtain ⟨_, b2, _⟩ := reach_bounds _ r1
  refine ⟨?_, ?_, ?_⟩
  · intro i hi
    have := r3 i hi
    omega
  · intro hs
    refine ⟨b2 hs, fun e => ?_⟩
    exact (reach_update e _ r1).2.2.2.2.2 hs
  · intro e i hi
    have := (reach_update e _ r1).2.2.2.2.1 i hi
    omega

set_option maxRecDepth 4000 in
/-- Witness for C12: after `set_pattern` and the dispatch of `0x05` the session
is in `STATE_REPLY` with depth 25 and has read the top of the queue at index 24. -/
theorem C12_no_pop_when_empty_witness :
    loads (Machine.exec rowOpsDispatched (Machine.fresh csiIdle client0)).2 = [24] ∧
    ((0 : Int) ≤ 24 ∧ (24 : Int) ≤ 31) ∧
    1 ≤ (Machine.exec rowOpsDispatched (Machine.fresh csiIdle client0)).1.client.bytesToSend :=
  ⟨by decide,
    (C12_no_pop_when_empty csiIdle client0 rowOpsDispatched).1 24 (by decide),
    ((C12_no_pop_when_empty csiIdle client0 rowOpsDispatched).2.1 (by decide)).1⟩

/-! ## The boot flag (C14) -/

theorem bootTrace_length (ops : List Op) (m : Machine) : (bootTrace ops m).length = ops.length := by
  induction ops generalizing m with
  | nil => rfl
  | cons o os ih => simp [bootTrace, ih]

theorem marks_append (a b : List Event) : marks (a ++ b) = marks a ++ marks b := by
  induction a with
  | nil => rfl
  | cons x t ih =>
    cases x with
    | digitalRead p l => cases p <;> simp [marks, ih]
    | digitalWrite p l => cases p <;> cases l <;> simp [marks, ih]
    | _ => simp [marks, ih]

/-- The value `CSI::update` returns tells whether it left the engine outside `STATE_IDLE`. -/
theorem CSI.update_flag (e : Env) (k : CSI) :
    (k.update e).busy = decide ((k.update e).csi.state ≠ .STATE_IDLE) := by
  cases k with
  | mk o i b s d =>
    cases s <;> simp only [CSI.update] <;> (try split_ifs) <;> simp

/-- One engine step: the invariant is kept, the step performed is the next one
of the fixed sequence, and the state moves at most one place forward. -/
theorem step_marks (e : Env) (k : CSI) (h : k.InTransfer) :
    (k.update e).csi.InTransfer ∧
    marks (k.update e).events ++ (k.update e).csi.todo = k.todo := by
  obtain ⟨o, a, b, s, d⟩ := k
  simp only [CSI.InTransfer] at h
  cases s <;> simp only at h
  · by_cases hc : e.cs = .HIGH <;>
      simp [CSI.update, hc, CSI.InTransfer, CSI.todo, marks, h]
  · subst h
    by_cases hc : e.cs = .HIGH <;>
      simp [CSI.update, hc, CSI.InTransfer, CSI.todo, marks]
  · by_cases ht : usub e.micros d < CLOCK_PERIOD / 2
    · simp [CSI.update, ht, CSI.InTransfer, CSI.todo, marks, h]
    · interval_cases b <;>
        simp [CSI.update, ht, CSI.InTransfer, CSI.todo, marks] <;> decide
  · simp [CSI.update, CSI.InTransfer, CSI.todo, marks, h]
  · by_cases hc : e.cs = .HIGH <;>
      simp [CSI.update, hc, CSI.InTransfer, CSI.todo, marks, h]

/-- Along any run of the engine the steps performed so far, followed by the
steps still to do, are the fixed sequence. -/
theorem run_marks (es : List Env) (k : CSI) (h : k.InTransfer) :
    (CSI.run es k).1.InTransfer ∧
    marks (CSI.run es k).2 ++ (CSI.run es k).1.todo = k.todo := by
  induction es generalizing k with
  | nil => exact ⟨h, rfl⟩
  | cons e es ih =>
    obtain ⟨s1, s2⟩ := step_marks e k h
    obtain ⟨i1, i2⟩ := ih _ s1
    simp only [CSI.run, marks_append]
    exact ⟨i1, by rw [List.append_assoc, i2, s2]⟩

theorem InTransfer_le (k : CSI) (h : k.InTransfer) : k.bitIndex ≤ 16 := by
  simp only [CSI.InTransfer] at h
  cases hs : k.state <;> simp only [hs] at h <;> omega

/-- An idle engine stays idle and every call returns false. -/
theorem flags_idle (es : List Env) (k : CSI) (h : k.state = .STATE_IDLE) :
    CSI.flags es k = List.replicate es.length false ∧ (CSI.run es k).1.state = .STATE_IDLE := by
  induction es generalizing k with
  | nil => exact ⟨rfl, h⟩
  | cons e es ih =>
    obtain ⟨u1, u2, _⟩ := CSI.update_idle e k h
    obtain ⟨i1, i2⟩ := ih (k.update e).csi (by rw [u1]; exact h)
    simp only [CSI.flags, CSI.run, List.length_cons, List.replicate_succ]
    exact ⟨by rw [u2, i1], i2⟩

/-- As long as the engine has not reached `STATE_IDLE`, every call returned true. -/
theorem flags_busy (es : List Env) (k : CSI) (h : (CSI.run es k).1.state ≠ .STATE_IDLE) :
    CSI.flags es k = List.replicate es.length true := by
  induction es generalizing k with
  | nil => rfl
  | cons e es ih =>
    simp only [CSI.run] at h
    have hk : (k.update e).csi.state ≠ .STATE_IDLE := by
      intro hi
      exact h (flags_idle es _ hi).2
    simp only [CSI.flags, List.length_cons, List.replicate_succ]
    rw [ih _ h, CSI.update_flag]
    simp [hk]

/-- The engine moves through its states in order, one place at a time. -/
theorem CSI.update_order (e : Env) (k : CSI) :
    ((k.update e).csi.state = .STATE_START → k.state = .STATE_START) ∧
    ((k.update e).csi.state = .STATE_TRANSFER →
      k.state = .STATE_START ∨ k.state = .STATE_TRANSFER) ∧
    ((k.update e).csi.state = .STATE_FINISH → k.state = .STATE_TRANSFER) ∧
    ((k.update e).csi.state = .STATE_WAIT_CS_UP →
      k.state = .STATE_FINISH ∨ k.state = .STATE_WAIT_CS_UP) ∧
    ((k.update e).csi.state = .STATE_IDLE →
      k.state = .STATE_WAIT_CS_UP ∨ k.state = .STATE_IDLE) := by
  cases k with
  | mk o i b s d =>
    cases s <;> simp only [CSI.update] <;> (try split_ifs) <;> simp

/-- C13: for every sequence of `CSI::update` calls that follows `sendOut`, under
arbitrary select and data-in levels and clock values: `bitIndex` stays within
`0 .. 16`; the steps performed so far followed by the steps still to do are
always the fixed sequence of 8 clock rises alternating with 8 data-in samples
followed by the finishing step, so the engine is back in `STATE_IDLE` only after
exactly these 16 half-steps and the finishing step, having passed through
`STATE_FINISH` and `STATE_WAIT_CS_UP` in this order; every call before
`STATE_IDLE` is reached returns true, and from `STATE_IDLE` on every call returns
false. -/
theorem C13_whole_byte (x : Nat) (k : CSI) (es : List Env) :
    (CSI.run es (k.sendOut x).1).1.bitIndex ≤ 16 ∧
    marks (CSI.run es (k.sendOut x).1).2 ++ (CSI.run es (k.sendOut x).1).1.todo =
      marksFrom 0 ∧
    marksFrom 0 =
      [.rise, .sample, .rise, .sample, .rise, .sample, .rise, .sample,
       .rise, .sample, .rise, .sample, .rise, .sample, .rise, .sample, .finishing] ∧
    ((CSI.run es (k.sendOut x).1).1.state = .STATE_IDLE →
      marks (CSI.run es (k.sendOut x).1).2 = marksFrom 0 ∧
      (marks (CSI.run es (k.sendOut x).1).2).count .rise = 8 ∧
      (marks (CSI.run es (k.sendOut x).1).2).count .sample = 8 ∧
      ∀ es2 : List Env,
        CSI.flags es2 (CSI.run es (k.sendOut x).1).1 = List.replicate es2.length false ∧
        (CSI.run es2 (CSI.run es (k.sendOut x).1).1).1.state = .STATE_IDLE) ∧
    ((CSI.run es (k.sendOut x).1).1.state ≠ .STATE_IDLE →
      CSI.flags es (k.sendOut x).1 = List.replicate es.length true) ∧
    (∀ (e : Env) (j : CSI),
      (j.update e).busy = decide ((j.update e).csi.state ≠ .STATE_IDLE) ∧
      ((j.update e).csi.state = .STATE_FINISH → j.state = .STATE_TRANSFER) ∧
      ((j.update e).csi.state = .STATE_WAIT_CS_UP →
        j.state = .STATE_FINISH ∨ j.state = .STATE_WAIT_CS_UP) ∧
      ((j.update e).csi.state = .STATE_IDLE →
        j.state = .STATE_WAIT_CS_UP ∨ j.state = .STATE_IDLE)) := by
  have h0 : (k.sendOut x).1.InTransfer := by simp [CSI.sendOut, CSI.InTransfer]
  have ht : (k.sendOut x).1.todo = marksFrom 0 := by simp [CSI.sendOut, CSI.todo]
  obtain ⟨r1, r2⟩ := run_marks es _ h0
  rw [ht] at r2
  refine ⟨InTransfer_le _ r1, r2, by decide, ?_, flags_busy es _, ?_⟩
  · intro hi
    have hm : marks (CSI.run es (k.sendOut x).1).2 = marksFrom 0 := by
      have : (CSI.run es (k.sendOut x).1).1.todo = [] := by simp [CSI.todo, hi]
      rw [this, List.append_nil] at r2
      exact r2
    refine ⟨hm, ?_, ?_, fun es2 => flags_idle es2 _ hi⟩
    · rw [hm]; decide
    · rw [hm]; decide
  · intro e j
    obtain ⟨_, _, o3, o4, o5⟩ := CSI.update_order e j
    exact ⟨CSI.update_flag e j, o3, o4, o5⟩

/-- Witness for C13: a whole transfer on the poll schedule: 18 calls return
true, the call that reaches `STATE_IDLE` returns false. -/
theorem C13_whole_byte_witness :
    (CSI.run (transferPolls 0 firstLow) (csiIdle.sendOut 0xA5).1).1.state = .STATE_IDLE ∧
    (marks (CSI.run (transferPolls 0 firstLow) (csiIdle.sendOut 0xA5).1).2).count .rise = 8 ∧
    CSI.flags (transferPolls 0 firstLow).dropLast (csiIdle.sendOut 0xA5).1 =
      List.replicate 18 true ∧
    CSI.flags (transferPolls 0 firstLow) (csiIdle.sendOut 0xA5).1 =
      List.replicate 18 true ++ [false] :=
  ⟨by decide,
    ((C13_whole_byte 0xA5 csiIdle (transferPolls 0 firstLow)).2.2.2.1 (by decide)).2.1,
    (C13_whole_byte 0xA5 csiIdle (transferPolls 0 firstLow).dropLast).2.2.2.2.1 (by decide),
    by decide⟩

end KH970
